import Mathlib

/-!
Verification of the Trading-bot repository against its specification.

The Solidity contract `src/contracts/src/PrivateTradingBot.sol` contains two
contract variants: a shielded-type variant (first contract in the file) and a
plain variant (second contract).  Both are embedded below as step functions on
an explicit ledger state.  Machine integers (uint256 / int256) are represented
as `Int` with explicit bounds checks mirroring the checked arithmetic of
Solidity 0.8 and the reinterpreting casts `int256(-)` / `uint256(-)`.
A reverted call is an `Except.error`; a reverted transaction leaves the state
unchanged (`applyTx`).

The backend (`src/backend/server.js`) cache, price-source fallback and REST
error handling, and the scoring logic of `aiStrategy.js`, are embedded further
below.
-/

set_option maxRecDepth 1000000

namespace TradingBot

/-- Modulus of the uint256 type. -/
def UMAX : Int := 2 ^ 256

/-- First value outside the int256 range, i.e. 2 to the 255. -/
def IHALF : Int := 2 ^ 255

/-- Checked uint256 multiplication: Solidity 0.8 reverts on overflow. -/
def umul (a b : Int) : Except String Int :=
  if a * b < UMAX then .ok (a * b) else .error "panic: arithmetic overflow"

/-- uint256 division: Solidity reverts on division by zero. -/
def udiv (a b : Int) : Except String Int :=
  if b = 0 then .error "panic: division by zero" else .ok (a / b)

/-- Reinterpret a uint256 value as int256, as the Solidity cast int256(x)
does: values at or above 2 to the 255 become negative. -/
def toInt256 (x : Int) : Int :=
  if x % UMAX < IHALF then x % UMAX else x % UMAX - UMAX

/-- Reinterpret an int256 value as uint256, as the Solidity cast uint256(x)
does: take the value modulo 2 to the 256. -/
def toUint256 (x : Int) : Int := x % UMAX

/-- Checked int256 addition: reverts when the mathematical sum leaves the
int256 range. -/
def iadd (a b : Int) : Except String Int :=
  if -IHALF ≤ a + b ∧ a + b < IHALF then .ok (a + b)
  else .error "panic: arithmetic overflow"

/-- Checked int256 negation: reverts exactly on the minimal int256 value. -/
def ineg (a : Int) : Except String Int :=
  if a = -IHALF then .error "panic: arithmetic overflow" else .ok (-a)

/-- A `Trade` record (struct Trade).  The shielded variant wraps `amount`,
`price`, `isBuy` and `coinId` in shielded types; the wrappers are transparent
casts, so one Lean structure serves both variants. -/
structure Trade where
  amount : Int
  price : Int
  isBuy : Bool
  timestamp : Int
  coinId : Int
deriving DecidableEq

/-- A `Position` record (struct Position). -/
structure Position where
  entryPrice : Int
  amount : Int
  stopLoss : Int
  takeProfit : Int
  openedAt : Int
  isActive : Bool
  coinId : Int
deriving DecidableEq, Inhabited

/-- A `BotConfig` record (struct BotConfig).  A fresh mapping slot is the
all-zero config, as in Solidity storage. -/
structure BotConfig where
  maxPositionSize : Int
  dailyTradeLimit : Int
  isActive : Bool
  minConfidence : Int
deriving DecidableEq, Inhabited

/-- The contract storage shared by both variants: the mappings keyed by
address (modelled as `Nat`) and the public scalars. -/
structure State where
  balances : Nat → Int
  tradeHistory : Nat → List Trade
  openPositions : Nat → List Position
  botConfigs : Nat → BotConfig
  dailyTradeCount : Nat → Int
  lastTradeDate : Nat → Int
  owner : Nat
  isPaused : Bool
  totalUsers : Int
  totalTrades : Int

/-- Events of the plain variant (the second contract in the file), whose
Deposit / Withdrawal / TradeExecuted events carry amounts. -/
inductive Event where
  | tradeExecuted (user : Nat) (timestamp : Int) (isBuy : Bool) (coinId amount price : Int)
  | positionOpened (user : Nat) (timestamp : Int) (coinId amount entryPrice : Int)
  | positionClosed (user : Nat) (timestamp : Int) (coinId : Int) (pnl : Int)
  | botConfigured (user : Nat) (timestamp : Int)
  | deposit (user : Nat) (amount : Int) (timestamp : Int)
  | withdrawal (user : Nat) (amount : Int) (timestamp : Int)
deriving DecidableEq

/-- Events of the shielded variant, which omits the private amounts from its
events and has no PositionOpened event. -/
inductive SEvent where
  | tradeExecuted (user : Nat) (timestamp : Int) (isBuy : Bool) (coinId : Int)
  | positionClosed (user : Nat) (timestamp : Int) (coinId : Int)
  | botConfigured (user : Nat) (timestamp : Int)
  | deposit (user : Nat) (timestamp : Int)
  | withdrawal (user : Nat) (timestamp : Int)
deriving DecidableEq

/-- `_resetDailyCounterIfNeeded` (identical in both variants): when the call
day is strictly later than the last trade day, zero the daily counter and
record the current timestamp. -/
def resetDailyCounterIfNeeded (s : State) (u : Nat) (t : Nat) : State :=
  if s.lastTradeDate u / 86400 < (t : Int) / 86400 then
    { s with dailyTradeCount := Function.update s.dailyTradeCount u 0,
             lastTradeDate := Function.update s.lastTradeDate u (t : Int) }
  else s

/-- The post-constructor state: empty mappings, not paused, zero counters. -/
def initState (deployer : Nat) : State where
  balances := fun _ => 0
  tradeHistory := fun _ => []
  openPositions := fun _ => []
  botConfigs := fun _ => default
  dailyTradeCount := fun _ => 0
  lastTradeDate := fun _ => 0
  owner := deployer
  isPaused := false
  totalUsers := 0
  totalTrades := 0

namespace Plain

/-- `deposit()` of the plain variant: requires not paused and a positive
value, adds `msg.value` to the caller balance (checked add), increments
`totalUsers` on a first deposit, and emits a Deposit event. -/
def deposit (s : State) (u v t : Nat) : Except String (State × List Event) :=
  if s.isPaused then .error "Trading is paused" else
  if v = 0 then .error "Must deposit more than 0" else
  let nb : Int := s.balances u + (v : Int)
  if UMAX ≤ nb then .error "panic: arithmetic overflow" else
  let s1 := { s with balances := Function.update s.balances u nb }
  if nb = (v : Int) then
    if UMAX ≤ s1.totalUsers + 1 then .error "panic: arithmetic overflow" else
    .ok ({ s1 with totalUsers := s1.totalUsers + 1 }, [.deposit u (v : Int) (t : Int)])
  else
    .ok (s1, [.deposit u (v : Int) (t : Int)])

/-- `withdraw(amount)` of the plain variant: requires not paused and a
sufficient balance, deducts before sending, reverts when the ETH transfer
fails (`xferOk` models the outcome of the low-level call). -/
def withdraw (s : State) (u : Nat) (amount : Nat) (xferOk : Bool) (t : Nat) :
    Except String (State × List Event) :=
  if s.isPaused then .error "Trading is paused" else
  let currentBalance := s.balances u
  if currentBalance < (amount : Int) then .error "Insufficient balance" else
  let s1 := { s with balances := Function.update s.balances u (currentBalance - (amount : Int)) }
  if xferOk then .ok (s1, [.withdrawal u (amount : Int) (t : Int)])
  else .error "Transfer failed"

/-- `executeTrade(amount, price, isBuy, coinId)` of the plain variant: after
the `whenNotPaused` and `withinDailyLimit` modifiers it requires an active
bot, requires the balance to cover amount plus the 0.1 percent fee, appends
the trade record, deducts the total cost and increments both counters. -/
def executeTrade (s : State) (u : Nat) (amount price : Nat) (isBuy : Bool)
    (coinId : Nat) (t : Nat) : Except String (State × List Event) :=
  if s.isPaused then .error "Trading is paused" else
  let s0 := resetDailyCounterIfNeeded s u t
  if (s0.botConfigs u).dailyTradeLimit ≤ s0.dailyTradeCount u then
    .error "Daily trade limit reached" else
  if ¬ (s0.botConfigs u).isActive then .error "Bot not active" else
  let currentBalance := s0.balances u
  let totalCost : Int := (amount : Int) + (amount : Int) / 1000
  if UMAX ≤ totalCost then .error "panic: arithmetic overflow" else
  if currentBalance < totalCost then .error "Insufficient balance" else
  let newHist := s0.tradeHistory u ++ [⟨(amount : Int), (price : Int), isBuy, (t : Int), (coinId : Int)⟩]
  let s1 := { s0 with tradeHistory := Function.update s0.tradeHistory u newHist }
  let s2 := { s1 with balances := Function.update s1.balances u (currentBalance - totalCost) }
  if UMAX ≤ s2.dailyTradeCount u + 1 then .error "panic: arithmetic overflow" else
  let s3 := { s2 with dailyTradeCount := Function.update s2.dailyTradeCount u (s2.dailyTradeCount u + 1) }
  if UMAX ≤ s3.totalTrades + 1 then .error "panic: arithmetic overflow" else
  .ok ({ s3 with totalTrades := s3.totalTrades + 1 },
       [.tradeExecuted u (t : Int) isBuy (coinId : Int) (amount : Int) (price : Int)])

/-- `openPosition(amount, entryPrice, stopLoss, takeProfit, coinId)` of the
plain variant. -/
def openPosition (s : State) (u : Nat) (amount entryPrice stopLoss takeProfit coinId : Nat)
    (t : Nat) : Except String (State × List Event) :=
  if s.isPaused then .error "Trading is paused" else
  let s0 := resetDailyCounterIfNeeded s u t
  if (s0.botConfigs u).dailyTradeLimit ≤ s0.dailyTradeCount u then
    .error "Daily trade limit reached" else
  if ¬ (s0.botConfigs u).isActive then .error "Bot not active" else
  let currentBalance := s0.balances u
  if currentBalance < (amount : Int) then .error "Insufficient balance" else
  if ¬ stopLoss < entryPrice then .error "Stop-loss must be below entry" else
  if ¬ entryPrice < takeProfit then .error "Take-profit must be above entry" else
  let newPosition : Position :=
    ⟨(entryPrice : Int), (amount : Int), (stopLoss : Int), (takeProfit : Int),
     (t : Int), true, (coinId : Int)⟩
  let s1 := { s0 with openPositions := Function.update s0.openPositions u (s0.openPositions u ++ [newPosition]) }
  let s2 := { s1 with balances := Function.update s1.balances u (currentBalance - (amount : Int)) }
  if UMAX ≤ s2.dailyTradeCount u + 1 then .error "panic: arithmetic overflow" else
  let s3 := { s2 with dailyTradeCount := Function.update s2.dailyTradeCount u (s2.dailyTradeCount u + 1) }
  if UMAX ≤ s3.totalTrades + 1 then .error "panic: arithmetic overflow" else
  .ok ({ s3 with totalTrades := s3.totalTrades + 1 },
       [.positionOpened u (t : Int) (coinId : Int) (amount : Int) (entryPrice : Int)])

/-- The profit-and-loss computation of `closePosition` (identical in both
variants): the price-difference branch, checked multiplication and division,
and the int256 casts. -/
def pnlCalc (entryPrice amount currentPrice : Int) : Except String Int :=
  if entryPrice < currentPrice then
    match umul (currentPrice - entryPrice) amount with
    | .error e => .error e
    | .ok prod =>
      match udiv prod entryPrice with
      | .error e => .error e
      | .ok q => .ok (toInt256 q)
  else
    match umul (entryPrice - currentPrice) amount with
    | .error e => .error e
    | .ok prod =>
      match udiv prod entryPrice with
      | .error e => .error e
      | .ok q => ineg (toInt256 q)

/-- `closePosition(positionIndex, currentPrice)` of the plain variant:
credits `uint256(int256(amount) + pnl)` back to the balance and marks the
position inactive. -/
def closePosition (s : State) (u : Nat) (positionIndex currentPrice : Nat)
    (t : Nat) : Except String (State × List Event) :=
  if s.isPaused then .error "Trading is paused" else
  if (s.openPositions u).length ≤ positionIndex then .error "Invalid index" else
  let position := (s.openPositions u).getD positionIndex default
  if ¬ position.isActive then .error "Position not active" else
  match pnlCalc position.entryPrice position.amount (currentPrice : Int) with
  | .error e => .error e
  | .ok pnl =>
    match iadd (toInt256 position.amount) pnl with
    | .error e => .error e
    | .ok sum =>
      let returnAmount := toUint256 sum
      let currentBalance := s.balances u
      if UMAX ≤ currentBalance + returnAmount then .error "panic: arithmetic overflow" else
      let s1 := { s with balances := Function.update s.balances u (currentBalance + returnAmount) }
      let closedList := (s1.openPositions u).set positionIndex { position with isActive := false }
      let s2 := { s1 with openPositions := Function.update s1.openPositions u closedList }
      .ok (s2, [.positionClosed u (t : Int) position.coinId pnl])

/-- `configureBotSettings` of the plain variant: caps the percentages and
requires a positive daily limit. -/
def configureBotSettings (s : State) (u : Nat) (maxPositionSize dailyTradeLimit : Nat)
    (isActive : Bool) (minConfidence : Nat) (t : Nat) : Except String (State × List Event) :=
  if 100 < maxPositionSize then .error "Max position size is 100%" else
  if 100 < minConfidence then .error "Min confidence is 100%" else
  if dailyTradeLimit = 0 then .error "Daily limit must be positive" else
  let newConfig : BotConfig :=
    ⟨(maxPositionSize : Int), (dailyTradeLimit : Int), isActive, (minConfidence : Int)⟩
  .ok ({ s with botConfigs := Function.update s.botConfigs u newConfig },
       [.botConfigured u (t : Int)])

/-- `getBalance()` view function. -/
def getBalance (s : State) (u : Nat) : Int := s.balances u

/-- `pause()` admin function. -/
def pause (s : State) (u : Nat) : Except String (State × List Event) :=
  if u ≠ s.owner then .error "Only owner can call this" else
  .ok ({ s with isPaused := true }, [])

/-- `unpause()` admin function. -/
def unpause (s : State) (u : Nat) : Except String (State × List Event) :=
  if u ≠ s.owner then .error "Only owner can call this" else
  .ok ({ s with isPaused := false }, [])

/-- `emergencyWithdraw()` admin function: sends the contract ETH balance to
the owner; it touches no ledger storage. -/
def emergencyWithdraw (s : State) (u : Nat) (xferOk : Bool) :
    Except String (State × List Event) :=
  if u ≠ s.owner then .error "Only owner can call this" else
  if xferOk then .ok (s, []) else .error "Emergency withdraw failed"

/-- The `receive()` fallback of the plain variant: credits `msg.value`
without any pause or positivity check and emits a Deposit event. -/
def receiveEth (s : State) (u v t : Nat) : Except String (State × List Event) :=
  let nb : Int := s.balances u + (v : Int)
  if UMAX ≤ nb then .error "panic: arithmetic overflow" else
  let s1 := { s with balances := Function.update s.balances u nb }
  if nb = (v : Int) then
    if UMAX ≤ s1.totalUsers + 1 then .error "panic: arithmetic overflow" else
    .ok ({ s1 with totalUsers := s1.totalUsers + 1 }, [.deposit u (v : Int) (t : Int)])
  else
    .ok (s1, [.deposit u (v : Int) (t : Int)])

end Plain

namespace Shielded

/-- `deposit()` of the shielded variant: same ledger logic as the plain
variant; its Deposit event omits the amount. -/
def deposit (s : State) (u v t : Nat) : Except String (State × List SEvent) :=
  if s.isPaused then .error "Trading is paused" else
  if v = 0 then .error "Must deposit more than 0" else
  let nb : Int := s.balances u + (v : Int)
  if UMAX ≤ nb then .error "panic: arithmetic overflow" else
  let s1 := { s with balances := Function.update s.balances u nb }
  if nb = (v : Int) then
    if UMAX ≤ s1.totalUsers + 1 then .error "panic: arithmetic overflow" else
    .ok ({ s1 with totalUsers := s1.totalUsers + 1 }, [.deposit u (t : Int)])
  else
    .ok (s1, [.deposit u (t : Int)])

/-- `withdraw(amount)` of the shielded variant. -/
def withdraw (s : State) (u : Nat) (amount : Nat) (xferOk : Bool) (t : Nat) :
    Except String (State × List SEvent) :=
  if s.isPaused then .error "Trading is paused" else
  let currentBalance := s.balances u
  if currentBalance < (amount : Int) then .error "Insufficient balance" else
  let s1 := { s with balances := Function.update s.balances u (currentBalance - (amount : Int)) }
  if xferOk then .ok (s1, [.withdrawal u (t : Int)])
  else .error "Transfer failed"

/-- `executeTrade` of the shielded variant: it only requires the balance to
cover `amount` (not the fee), pushes the trade record, and then performs the
checked subtraction of `amount + amount / 1000`, which panics when the fee
makes the total exceed the balance. -/
def executeTrade (s : State) (u : Nat) (amount price : Nat) (isBuy : Bool)
    (coinId : Nat) (t : Nat) : Except String (State × List SEvent) :=
  if s.isPaused then .error "Trading is paused" else
  let s0 := resetDailyCounterIfNeeded s u t
  if (s0.botConfigs u).dailyTradeLimit ≤ s0.dailyTradeCount u then
    .error "Daily trade limit reached" else
  if ¬ (s0.botConfigs u).isActive then .error "Bot not active" else
  let currentBalance := s0.balances u
  if currentBalance < (amount : Int) then .error "Insufficient balance" else
  let newHist := s0.tradeHistory u ++ [⟨(amount : Int), (price : Int), isBuy, (t : Int), (coinId : Int)⟩]
  let s1 := { s0 with tradeHistory := Function.update s0.tradeHistory u newHist }
  let totalCost : Int := (amount : Int) + (amount : Int) / 1000
  if UMAX ≤ totalCost then .error "panic: arithmetic overflow" else
  if currentBalance < totalCost then .error "panic: arithmetic underflow" else
  let s2 := { s1 with balances := Function.update s1.balances u (currentBalance - totalCost) }
  if UMAX ≤ s2.dailyTradeCount u + 1 then .error "panic: arithmetic overflow" else
  let s3 := { s2 with dailyTradeCount := Function.update s2.dailyTradeCount u (s2.dailyTradeCount u + 1) }
  if UMAX ≤ s3.totalTrades + 1 then .error "panic: arithmetic overflow" else
  .ok ({ s3 with totalTrades := s3.totalTrades + 1 },
       [.tradeExecuted u (t : Int) isBuy (coinId : Int)])

/-- `openPosition` of the shielded variant (same logic as the plain variant;
it emits no event). -/
def openPosition (s : State) (u : Nat) (amount entryPrice stopLoss takeProfit coinId : Nat)
    (t : Nat) : Except String (State × List SEvent) :=
  if s.isPaused then .error "Trading is paused" else
  let s0 := resetDailyCounterIfNeeded s u t
  if (s0.botConfigs u).dailyTradeLimit ≤ s0.dailyTradeCount u then
    .error "Daily trade limit reached" else
  if ¬ (s0.botConfigs u).isActive then .error "Bot not active" else
  let currentBalance := s0.balances u
  if currentBalance < (amount : Int) then .error "Insufficient balance" else
  if ¬ stopLoss < entryPrice then .error "Stop-loss must be below entry" else
  if ¬ entryPrice < takeProfit then .error "Take-profit must be above entry" else
  let newPosition : Position :=
    ⟨(entryPrice : Int), (amount : Int), (stopLoss : Int), (takeProfit : Int),
     (t : Int), true, (coinId : Int)⟩
  let s1 := { s0 with openPositions := Function.update s0.openPositions u (s0.openPositions u ++ [newPosition]) }
  let s2 := { s1 with balances := Function.update s1.balances u (currentBalance - (amount : Int)) }
  if UMAX ≤ s2.dailyTradeCount u + 1 then .error "panic: arithmetic overflow" else
  let s3 := { s2 with dailyTradeCount := Function.update s2.dailyTradeCount u (s2.dailyTradeCount u + 1) }
  if UMAX ≤ s3.totalTrades + 1 then .error "panic: arithmetic overflow" else
  .ok ({ s3 with totalTrades := s3.totalTrades + 1 }, [])

/-- `closePosition` of the shielded variant (same ledger logic as the plain
variant; its event omits the pnl). -/
def closePosition (s : State) (u : Nat) (positionIndex currentPrice : Nat)
    (t : Nat) : Except String (State × List SEvent) :=
  if s.isPaused then .error "Trading is paused" else
  if (s.openPositions u).length ≤ positionIndex then .error "Invalid index" else
  let position := (s.openPositions u).getD positionIndex default
  if ¬ position.isActive then .error "Position not active" else
  match Plain.pnlCalc position.entryPrice position.amount (currentPrice : Int) with
  | .error e => .error e
  | .ok pnl =>
    match iadd (toInt256 position.amount) pnl with
    | .error e => .error e
    | .ok sum =>
      let returnAmount := toUint256 sum
      let currentBalance := s.balances u
      if UMAX ≤ currentBalance + returnAmount then .error "panic: arithmetic overflow" else
      let s1 := { s with balances := Function.update s.balances u (currentBalance + returnAmount) }
      let closedList := (s1.openPositions u).set positionIndex { position with isActive := false }
      let s2 := { s1 with openPositions := Function.update s1.openPositions u closedList }
      .ok (s2, [.positionClosed u (t : Int) position.coinId])

/-- `configureBotSettings` of the shielded variant: unlike the plain variant
it does not require a positive daily limit. -/
def configureBotSettings (s : State) (u : Nat) (maxPositionSize dailyTradeLimit : Nat)
    (isActive : Bool) (minConfidence : Nat) (t : Nat) : Except String (State × List SEvent) :=
  if 100 < maxPositionSize then .error "Max position size is 100%" else
  if 100 < minConfidence then .error "Min confidence is 100%" else
  let newConfig : BotConfig :=
    ⟨(maxPositionSize : Int), (dailyTradeLimit : Int), isActive, (minConfidence : Int)⟩
  .ok ({ s with botConfigs := Function.update s.botConfigs u newConfig },
       [.botConfigured u (t : Int)])

/-- `getBalance()` view function of the shielded variant (it unmasks the
shielded balance of the caller). -/
def getBalance (s : State) (u : Nat) : Int := s.balances u

end Shielded

/-- The externally callable operations of the plain contract. -/
inductive Call where
  | deposit (v : Nat)
  | withdraw (amount : Nat) (xferOk : Bool)
  | executeTrade (amount price : Nat) (isBuy : Bool) (coinId : Nat)
  | openPosition (amount entryPrice stopLoss takeProfit coinId : Nat)
  | closePosition (positionIndex currentPrice : Nat)
  | configureBotSettings (maxPositionSize dailyTradeLimit : Nat) (isActive : Bool) (minConfidence : Nat)
  | pause
  | unpause
  | receiveEth (v : Nat)
  | emergencyWithdraw (xferOk : Bool)
deriving DecidableEq

/-- A transaction: a sender, the block timestamp, and the call. -/
structure Tx where
  sender : Nat
  time : Nat
  call : Call
deriving DecidableEq

/-- Dispatch a transaction to the plain-variant operation it invokes. -/
def step (s : State) (tx : Tx) : Except String (State × List Event) :=
  match tx.call with
  | .deposit v => Plain.deposit s tx.sender v tx.time
  | .withdraw amount xferOk => Plain.withdraw s tx.sender amount xferOk tx.time
  | .executeTrade amount price isBuy coinId =>
      Plain.executeTrade s tx.sender amount price isBuy coinId tx.time
  | .openPosition amount entryPrice stopLoss takeProfit coinId =>
      Plain.openPosition s tx.sender amount entryPrice stopLoss takeProfit coinId tx.time
  | .closePosition positionIndex currentPrice =>
      Plain.closePosition s tx.sender positionIndex currentPrice tx.time
  | .configureBotSettings maxPositionSize dailyTradeLimit isActive minConfidence =>
      Plain.configureBotSettings s tx.sender maxPositionSize dailyTradeLimit isActive minConfidence tx.time
  | .pause => Plain.pause s tx.sender
  | .unpause => Plain.unpause s tx.sender
  | .receiveEth v => Plain.receiveEth s tx.sender v tx.time
  | .emergencyWithdraw xferOk => Plain.emergencyWithdraw s tx.sender xferOk

/-- Apply a transaction: a reverted transaction leaves the state unchanged. -/
def applyTx (s : State) (tx : Tx) : State :=
  match step s tx with
  | .ok (s1, _) => s1
  | .error _ => s

/-- Run a list of transactions in order. -/
def run (s : State) : List Tx → State
  | [] => s
  | tx :: txs => run (applyTx s tx) txs

namespace Server

/-- `CACHE_DURATION` of server.js: thirty seconds in milliseconds. -/
def CACHE_DURATION : Nat := 30000

/-- One entry of the in-memory cache `Map`: the stored data and the
timestamp at which it was stored. -/
structure Entry where
  data : Nat
  timestamp : Nat
deriving DecidableEq

/-- The cache-relevant state of server.js: the `cache` map and the
`pendingRequests` map (pending promises are identified by a number drawn
from `nextId`).  Keys and cached payloads are abstracted as `Nat`. -/
structure CState where
  cache : Nat → Option Entry
  pending : Nat → Option Nat
  nextId : Nat

/-- The empty maps at server start. -/
def cinit : CState where
  cache := fun _ => none
  pending := fun _ => none
  nextId := 0

/-- What the synchronous head of `cachedFetch` decides for a call: reuse the
pending promise for the key, return the cached data, or start a new fetch. -/
inductive Decision where
  | awaitPending (pid : Nat)
  | cacheHit (data : Nat)
  | startFetch
deriving DecidableEq

/-- The decision logic at the top of `cachedFetch`: the pending-request check
comes first; otherwise a cache entry strictly younger than `duration` is
returned; otherwise a fetch is started. -/
def cachedFetchDecision (s : CState) (key now duration : Nat) : Decision :=
  match s.pending key with
  | some pid => .awaitPending pid
  | none =>
    match s.cache key with
    | some e => if (now : Int) - (e.timestamp : Int) < (duration : Int) then .cacheHit e.data
                else .startFetch
    | none => .startFetch

/-- Asynchronous cache events: a `cachedFetch` call reaching its decision, a
pending fetch resolving successfully (`cache.set` then the finally-block
delete), or a pending fetch throwing (only the finally-block delete). -/
inductive CEvent where
  | call (key now : Nat)
  | resolveOk (key data now : Nat)
  | resolveErr (key now : Nat)
deriving DecidableEq

/-- The time at which a cache event happens. -/
def CEvent.time : CEvent → Nat
  | .call _ now => now
  | .resolveOk _ _ now => now
  | .resolveErr _ now => now

/-- State transition for one cache event. -/
def cstep (s : CState) (e : CEvent) (duration : Nat) : CState :=
  match e with
  | .call key now =>
    match cachedFetchDecision s key now duration with
    | .startFetch =>
        { s with pending := Function.update s.pending key (some s.nextId),
                 nextId := s.nextId + 1 }
    | _ => s
  | .resolveOk key data now =>
    match s.pending key with
    | some _ =>
        { s with cache := Function.update s.cache key (some ⟨data, now⟩),
                 pending := Function.update s.pending key none }
    | none => s
  | .resolveErr key _ =>
    match s.pending key with
    | some _ => { s with pending := Function.update s.pending key none }
    | none => s

/-- Run a list of cache events in order. -/
def crun (s : CState) (duration : Nat) : List CEvent → CState
  | [] => s
  | e :: es => crun (cstep s e duration) duration es

/-- The value a resolving fetch produces for its awaiters, per the catch
block of `cachedFetch`: on success the fresh data, on error the stale cache
entry when one exists, otherwise the error propagates. -/
def resolveResult (s : CState) (key : Nat) (outcome : Except String Nat) :
    Except String Nat :=
  match outcome with
  | .ok d => .ok d
  | .error err =>
    match s.cache key with
    | some e => .ok e.data
    | none => .error err

/-- A coin record as assembled by server.js.  The `sparkline_in_7d` field is
produced by `generateSparkline` from `Math.random()` and is omitted from this
deterministic embedding; all other fields of the mock list are literal. -/
structure Coin where
  id : String
  symbol : String
  name : String
  current_price : ℚ
  price_change_percentage_24h : ℚ
  market_cap : ℚ
  total_volume : ℚ
deriving DecidableEq

/-- `getMockCoins()`: the fixed fallback list. -/
def getMockCoins : List Coin :=
  [⟨"bitcoin", "btc", "Bitcoin", 45230.50, 2.34, 885000000000, 28000000000⟩,
   ⟨"ethereum", "eth", "Ethereum", 2345.80, -1.23, 282000000000, 15000000000⟩,
   ⟨"solana", "sol", "Solana", 98.45, 5.67, 43000000000, 2500000000⟩]

/-- The source loop of `fetchPricesFromMultipleSources`: try each source in
order, return the first success, and fall back to the mock list when every
source throws. -/
def trySources : List (Except String (List Coin)) → List Coin
  | [] => getMockCoins
  | .ok r :: _ => r
  | .error _ :: rest => trySources rest

/-- `fetchPricesFromMultipleSources`, with the outcomes of the Binance and
CryptoCompare sources as parameters. -/
def fetchPricesFromMultipleSources (binance cryptoCompare : Except String (List Coin)) :
    List Coin :=
  trySources [binance, cryptoCompare]

/-- The projection of a coin sent by the GET /api/coins handler. -/
structure CoinSummary where
  id : String
  symbol : String
  name : String
  current_price : ℚ
  price_change_percentage_24h : ℚ
deriving DecidableEq

/-- An HTTP response of the coins handler: status code, the success flag of
the JSON body, its error field, and its coins field. -/
structure HandlerResponse where
  status : Nat
  success : Bool
  errorMsg : Option String
  coins : List CoinSummary
deriving DecidableEq

/-- The GET /api/coins handler, with the outcome of the awaited `cachedFetch`
as parameter: on success a 200 JSON body with the projected coins, on a
caught error a 500 JSON body with success false and the error message. -/
def coinsHandler (r : Except String (List Coin)) : HandlerResponse :=
  match r with
  | .ok coins =>
      ⟨200, true, none,
       coins.map fun c => ⟨c.id, c.symbol, c.name, c.current_price, c.price_change_percentage_24h⟩⟩
  | .error e => ⟨500, false, some e, []⟩

end Server

namespace AIStrategy

/-- The technical-indicator inputs of `generateTradingSignal`. -/
structure Technicals where
  rsi : ℚ
  sma20 : ℚ
  sma50 : ℚ
  macd : ℚ
  signal : ℚ

/-- The trading signal produced by `generateTradingSignal`. -/
inductive Signal where
  | BUY
  | SELL
  | HOLD
deriving DecidableEq

/-- The buy-score accumulation of `generateTradingSignal` before the volume
step.  Each summand is one of the guarded `+=` statements of the source; the
guards of the else-if chains are spelled out. -/
def buyScoreBase (tech : Technicals) (sentimentScore momentum : ℚ) : ℚ :=
  (if tech.rsi < 30 then 0.3 * 0.35 else 0)
  + (if tech.sma50 < tech.sma20 then 0.25 * 0.35 else 0)
  + (if tech.signal < tech.macd then 0.2 * 0.35 else 0)
  + (if 0.6 < sentimentScore then (sentimentScore - 0.5) * 0.25 else 0)
  + (if 3 < momentum then momentum / 10 * 0.25 else 0)

/-- The sell-score accumulation of `generateTradingSignal` before the volume
step. -/
def sellScoreBase (tech : Technicals) (sentimentScore momentum : ℚ) : ℚ :=
  (if ¬ tech.rsi < 30 ∧ 70 < tech.rsi then 0.3 * 0.35 else 0)
  + (if ¬ tech.sma50 < tech.sma20 ∧ tech.sma20 < tech.sma50 then 0.25 * 0.35 else 0)
  + (if ¬ tech.signal < tech.macd then 0.2 * 0.35 else 0)
  + (if ¬ 0.6 < sentimentScore ∧ sentimentScore < 0.4 then (0.5 - sentimentScore) * 0.25 else 0)
  + (if ¬ 3 < momentum ∧ momentum < -3 then |momentum| / 10 * 0.25 else 0)

/-- The volume step: when the volume score exceeds 0.7, 0.15 is added to the
stronger of the two scores (ties feed the sell score, per the else branch). -/
def finalScores (tech : Technicals) (sentimentScore momentum volumeScore : ℚ) : ℚ × ℚ :=
  let b := buyScoreBase tech sentimentScore momentum
  let s := sellScoreBase tech sentimentScore momentum
  if 0.7 < volumeScore then
    if s < b then (b + 0.15, s) else (b, s + 0.15)
  else (b, s)

/-- `generateTradingSignal`: BUY or SELL only when the winning score strictly
exceeds the 0.70 MIN_CONFIDENCE threshold, otherwise HOLD; the returned
confidence is the winning score capped at 1, or the larger score for HOLD. -/
def generateTradingSignal (tech : Technicals) (sentimentScore momentum volumeScore : ℚ) :
    Signal × ℚ :=
  let p := finalScores tech sentimentScore momentum volumeScore
  if p.2 < p.1 ∧ 0.7 < p.1 then (.BUY, min p.1 1)
  else if p.1 < p.2 ∧ 0.7 < p.2 then (.SELL, min p.2 1)
  else (.HOLD, max p.1 p.2)

end AIStrategy

/-! ### Field lemmas for the daily-counter reset -/

@[simp] theorem reset_balances (s : State) (u t : Nat) :
    (resetDailyCounterIfNeeded s u t).balances = s.balances := by
  unfold resetDailyCounterIfNeeded; split <;> rfl

@[simp] theorem reset_tradeHistory (s : State) (u t : Nat) :
    (resetDailyCounterIfNeeded s u t).tradeHistory = s.tradeHistory := by
  unfold resetDailyCounterIfNeeded; split <;> rfl

@[simp] theorem reset_openPositions (s : State) (u t : Nat) :
    (resetDailyCounterIfNeeded s u t).openPositions = s.openPositions := by
  unfold resetDailyCounterIfNeeded; split <;> rfl

@[simp] theorem reset_botConfigs (s : State) (u t : Nat) :
    (resetDailyCounterIfNeeded s u t).botConfigs = s.botConfigs := by
  unfold resetDailyCounterIfNeeded; split <;> rfl

@[simp] theorem reset_owner (s : State) (u t : Nat) :
    (resetDailyCounterIfNeeded s u t).owner = s.owner := by
  unfold resetDailyCounterIfNeeded; split <;> rfl

@[simp] theorem reset_isPaused (s : State) (u t : Nat) :
    (resetDailyCounterIfNeeded s u t).isPaused = s.isPaused := by
  unfold resetDailyCounterIfNeeded; split <;> rfl

@[simp] theorem reset_totalUsers (s : State) (u t : Nat) :
    (resetDailyCounterIfNeeded s u t).totalUsers = s.totalUsers := by
  unfold resetDailyCounterIfNeeded; split <;> rfl

@[simp] theorem reset_totalTrades (s : State) (u t : Nat) :
    (resetDailyCounterIfNeeded s u t).totalTrades = s.totalTrades := by
  unfold resetDailyCounterIfNeeded; split <;> rfl

@[simp] theorem reset_daily_ne (s : State) (u t b : Nat) (h : b ≠ u) :
    (resetDailyCounterIfNeeded s u t).dailyTradeCount b = s.dailyTradeCount b := by
  unfold resetDailyCounterIfNeeded; split <;> simp [Function.update_noteq h]

@[simp] theorem reset_last_ne (s : State) (u t b : Nat) (h : b ≠ u) :
    (resetDailyCounterIfNeeded s u t).lastTradeDate b = s.lastTradeDate b := by
  unfold resetDailyCounterIfNeeded; split <;> simp [Function.update_noteq h]

theorem reset_daily_u (s : State) (u t : Nat) :
    (resetDailyCounterIfNeeded s u t).dailyTradeCount u =
      if s.lastTradeDate u / 86400 < (t : Int) / 86400 then 0 else s.dailyTradeCount u := by
  unfold resetDailyCounterIfNeeded; split <;> simp

theorem reset_last_u (s : State) (u t : Nat) :
    (resetDailyCounterIfNeeded s u t).lastTradeDate u =
      if s.lastTradeDate u / 86400 < (t : Int) / 86400 then (t : Int) else s.lastTradeDate u := by
  unfold resetDailyCounterIfNeeded; split <;> simp

/-! ### Inversion lemmas for the plain-variant operations -/

theorem deposit_ok {s : State} {u v t : Nat} {s' : State} {ev : List Event}
    (h : Plain.deposit s u v t = .ok (s', ev)) :
    s.isPaused = false ∧ v ≠ 0 ∧ s.balances u + (v : Int) < UMAX ∧
    s' = ⟨Function.update s.balances u (s.balances u + (v : Int)), s.tradeHistory,
          s.openPositions, s.botConfigs, s.dailyTradeCount, s.lastTradeDate,
          s.owner, s.isPaused,
          (if s.balances u + (v : Int) = (v : Int) then s.totalUsers + 1 else s.totalUsers),
          s.totalTrades⟩ ∧
    ev = [.deposit u (v : Int) (t : Int)] := by
  unfold Plain.deposit at h
  dsimp only at h
  repeat' split at h
  any_goals exact Except.noConfusion h
  all_goals
    simp only [Except.ok.injEq, Prod.mk.injEq] at h
  all_goals
    obtain ⟨rfl, rfl⟩ := h
  all_goals
    refine ⟨by simp_all, by simp_all, by omega, ?_, rfl⟩
  all_goals
    simp_all

theorem withdraw_ok {s : State} {u amount t : Nat} {xferOk : Bool} {s' : State} {ev : List Event}
    (h : Plain.withdraw s u amount xferOk t = .ok (s', ev)) :
    s.isPaused = false ∧ (amount : Int) ≤ s.balances u ∧ xferOk = true ∧
    s' = ⟨Function.update s.balances u (s.balances u - (amount : Int)), s.tradeHistory,
          s.openPositions, s.botConfigs, s.dailyTradeCount, s.lastTradeDate,
          s.owner, s.isPaused, s.totalUsers, s.totalTrades⟩ ∧
    ev = [.withdrawal u (amount : Int) (t : Int)] := by
  unfold Plain.withdraw at h
  dsimp only at h
  repeat' split at h
  any_goals exact Except.noConfusion h
  simp only [Except.ok.injEq, Prod.mk.injEq] at h
  obtain ⟨rfl, rfl⟩ := h
  refine ⟨by simp_all, by omega, by simp_all, rfl, rfl⟩

theorem receiveEth_ok {s : State} {u v t : Nat} {s' : State} {ev : List Event}
    (h : Plain.receiveEth s u v t = .ok (s', ev)) :
    s.balances u + (v : Int) < UMAX ∧
    s' = ⟨Function.update s.balances u (s.balances u + (v : Int)), s.tradeHistory,
          s.openPositions, s.botConfigs, s.dailyTradeCount, s.lastTradeDate,
          s.owner, s.isPaused,
          (if s.balances u + (v : Int) = (v : Int) then s.totalUsers + 1 else s.totalUsers),
          s.totalTrades⟩ ∧
    ev = [.deposit u (v : Int) (t : Int)] := by
  unfold Plain.receiveEth at h
  dsimp only at h
  repeat' split at h
  any_goals exact Except.noConfusion h
  all_goals
    simp only [Except.ok.injEq, Prod.mk.injEq] at h
  all_goals
    obtain ⟨rfl, rfl⟩ := h
  all_goals
    refine ⟨by omega, ?_, rfl⟩
  all_goals
    simp_all

theorem configureBotSettings_ok {s : State} {u mps dtl minc t : Nat} {act : Bool}
    {s' : State} {ev : List Event}
    (h : Plain.configureBotSettings s u mps dtl act minc t = .ok (s', ev)) :
    mps ≤ 100 ∧ minc ≤ 100 ∧ dtl ≠ 0 ∧
    s' = ⟨s.balances, s.tradeHistory, s.openPositions,
          Function.update s.botConfigs u ⟨(mps : Int), (dtl : Int), act, (minc : Int)⟩,
          s.dailyTradeCount, s.lastTradeDate, s.owner, s.isPaused,
          s.totalUsers, s.totalTrades⟩ ∧
    ev = [.botConfigured u (t : Int)] := by
  unfold Plain.configureBotSettings at h
  dsimp only at h
  repeat' split at h
  any_goals exact Except.noConfusion h
  simp only [Except.ok.injEq, Prod.mk.injEq] at h
  obtain ⟨rfl, rfl⟩ := h
  refine ⟨by omega, by omega, by simp_all, rfl, rfl⟩

theorem executeTrade_ok {s : State} {u amount price coinId t : Nat} {isBuy : Bool}
    {s' : State} {ev : List Event}
    (h : Plain.executeTrade s u amount price isBuy coinId t = .ok (s', ev)) :
    s.isPaused = false ∧
    (resetDailyCounterIfNeeded s u t).dailyTradeCount u <
      (s.botConfigs u).dailyTradeLimit ∧
    (s.botConfigs u).isActive = true ∧
    (amount : Int) + (amount : Int) / 1000 < UMAX ∧
    (amount : Int) + (amount : Int) / 1000 ≤ s.balances u ∧
    s' = ⟨Function.update s.balances u (s.balances u - ((amount : Int) + (amount : Int) / 1000)),
          Function.update s.tradeHistory u
            (s.tradeHistory u ++ [⟨(amount : Int), (price : Int), isBuy, (t : Int), (coinId : Int)⟩]),
          s.openPositions, s.botConfigs,
          Function.update ((resetDailyCounterIfNeeded s u t).dailyTradeCount) u
            ((resetDailyCounterIfNeeded s u t).dailyTradeCount u + 1),
          (resetDailyCounterIfNeeded s u t).lastTradeDate,
          s.owner, s.isPaused, s.totalUsers, s.totalTrades + 1⟩ ∧
    ev = [.tradeExecuted u (t : Int) isBuy (coinId : Int) (amount : Int) (price : Int)] := by
  unfold Plain.executeTrade at h
  dsimp only at h
  repeat' split at h
  any_goals exact Except.noConfusion h
  rename_i h1 h2 h3 h4 h5 h6 h7
  simp only [Except.ok.injEq, Prod.mk.injEq] at h
  obtain ⟨rfl, rfl⟩ := h
  rw [reset_botConfigs] at h2 h3
  refine ⟨by simp_all, by omega, by simpa using h3, by omega, ?_, ?_, rfl⟩
  · rw [reset_balances] at h5; omega
  · simp only [reset_balances, reset_tradeHistory, reset_openPositions, reset_botConfigs,
      reset_owner, reset_isPaused, reset_totalUsers, reset_totalTrades]

theorem openPosition_ok {s : State} {u amount entryPrice stopLoss takeProfit coinId t : Nat}
    {s' : State} {ev : List Event}
    (h : Plain.openPosition s u amount entryPrice stopLoss takeProfit coinId t = .ok (s', ev)) :
    s.isPaused = false ∧
    (resetDailyCounterIfNeeded s u t).dailyTradeCount u <
      (s.botConfigs u).dailyTradeLimit ∧
    (s.botConfigs u).isActive = true ∧
    (amount : Int) ≤ s.balances u ∧
    stopLoss < entryPrice ∧ entryPrice < takeProfit ∧
    s' = ⟨Function.update s.balances u (s.balances u - (amount : Int)),
          s.tradeHistory,
          Function.update s.openPositions u
            (s.openPositions u ++
              [⟨(entryPrice : Int), (amount : Int), (stopLoss : Int), (takeProfit : Int),
                (t : Int), true, (coinId : Int)⟩]),
          s.botConfigs,
          Function.update ((resetDailyCounterIfNeeded s u t).dailyTradeCount) u
            ((resetDailyCounterIfNeeded s u t).dailyTradeCount u + 1),
          (resetDailyCounterIfNeeded s u t).lastTradeDate,
          s.owner, s.isPaused, s.totalUsers, s.totalTrades + 1⟩ ∧
    ev = [.positionOpened u (t : Int) (coinId : Int) (amount : Int) (entryPrice : Int)] := by
  unfold Plain.openPosition at h
  dsimp only at h
  repeat' split at h
  any_goals exact Except.noConfusion h
  rename_i h1 h2 h3 h4 h5 h6 h7 h8
  simp only [Except.ok.injEq, Prod.mk.injEq] at h
  obtain ⟨rfl, rfl⟩ := h
  rw [reset_botConfigs] at h2 h3
  refine ⟨by simp_all, by omega, by simpa using h3, ?_, by omega, by omega, ?_, rfl⟩
  · rw [reset_balances] at h4; omega
  · simp only [reset_balances, reset_tradeHistory, reset_openPositions, reset_botConfigs,
      reset_owner, reset_isPaused, reset_totalUsers, reset_totalTrades]

theorem closePosition_ok {s : State} {u positionIndex currentPrice t : Nat}
    {s' : State} {ev : List Event}
    (h : Plain.closePosition s u positionIndex currentPrice t = .ok (s', ev)) :
    s.isPaused = false ∧ positionIndex < (s.openPositions u).length ∧
    ((s.openPositions u).getD positionIndex default).isActive = true ∧
    ∃ pnl sum,
      Plain.pnlCalc ((s.openPositions u).getD positionIndex default).entryPrice
        ((s.openPositions u).getD positionIndex default).amount (currentPrice : Int) = .ok pnl ∧
      iadd (toInt256 ((s.openPositions u).getD positionIndex default).amount) pnl = .ok sum ∧
      s.balances u + toUint256 sum < UMAX ∧
      s' = ⟨Function.update s.balances u (s.balances u + toUint256 sum),
            s.tradeHistory,
            Function.update s.openPositions u
              ((s.openPositions u).set positionIndex
                { (s.openPositions u).getD positionIndex default with isActive := false }),
            s.botConfigs, s.dailyTradeCount, s.lastTradeDate,
            s.owner, s.isPaused, s.totalUsers, s.totalTrades⟩ ∧
      ev = [.positionClosed u (t : Int)
              ((s.openPositions u).getD positionIndex default).coinId pnl] := by
  unfold Plain.closePosition at h
  dsimp only at h
  repeat' split at h
  any_goals exact Except.noConfusion h
  rename_i h1 h2 h3 scr1 pnl hpnl scr2 sum hsum hover
  simp only [Except.ok.injEq, Prod.mk.injEq] at h
  obtain ⟨rfl, rfl⟩ := h
  exact ⟨by simp_all, by omega, by simpa using h3, pnl, sum, hpnl, hsum, by omega, rfl, rfl⟩

theorem pause_ok {s : State} {u : Nat} {s' : State} {ev : List Event}
    (h : Plain.pause s u = .ok (s', ev)) :
    u = s.owner ∧
    s' = ⟨s.balances, s.tradeHistory, s.openPositions, s.botConfigs,
          s.dailyTradeCount, s.lastTradeDate, s.owner, true,
          s.totalUsers, s.totalTrades⟩ ∧ ev = [] := by
  unfold Plain.pause at h
  repeat' split at h
  any_goals exact Except.noConfusion h
  simp only [Except.ok.injEq, Prod.mk.injEq] at h
  obtain ⟨rfl, rfl⟩ := h
  refine ⟨by simp_all, rfl, rfl⟩

theorem unpause_ok {s : State} {u : Nat} {s' : State} {ev : List Event}
    (h : Plain.unpause s u = .ok (s', ev)) :
    u = s.owner ∧
    s' = ⟨s.balances, s.tradeHistory, s.openPositions, s.botConfigs,
          s.dailyTradeCount, s.lastTradeDate, s.owner, false,
          s.totalUsers, s.totalTrades⟩ ∧ ev = [] := by
  unfold Plain.unpause at h
  repeat' split at h
  any_goals exact Except.noConfusion h
  simp only [Except.ok.injEq, Prod.mk.injEq] at h
  obtain ⟨rfl, rfl⟩ := h
  refine ⟨by simp_all, rfl, rfl⟩

theorem emergencyWithdraw_ok {s : State} {u : Nat} {xferOk : Bool} {s' : State} {ev : List Event}
    (h : Plain.emergencyWithdraw s u xferOk = .ok (s', ev)) :
    u = s.owner ∧ s' = s ∧ ev = [] := by
  unfold Plain.emergencyWithdraw at h
  repeat' split at h
  any_goals exact Except.noConfusion h
  simp only [Except.ok.injEq, Prod.mk.injEq] at h
  obtain ⟨rfl, rfl⟩ := h
  exact ⟨by simp_all, rfl, rfl⟩

/-! ### C4: executeTrade postcondition -/

/-- A trace putting user 1 at dailyTradeCount 2 on day 0. -/
def c4Trace : List Tx :=
  [⟨1, 0, .configureBotSettings 50 5 true 70⟩,
   ⟨1, 0, .deposit 1000000⟩,
   ⟨1, 0, .executeTrade 1000 5 true 0⟩,
   ⟨1, 0, .executeTrade 1000 5 true 0⟩]

/-- The state reached by `c4Trace`. -/
def c4State : State := run (initState 0) c4Trace

/-- A successful trade by user 1 on the following day. -/
def c4Tx : Tx := ⟨1, 86400, .executeTrade 1000 5 true 0⟩

/-- C4 counterexample: a successful `executeTrade` on a strictly later day
leaves `dailyTradeCount` at 1 (the modifier first resets the counter), not at
the previous value plus one as the claim states. -/
theorem c4_counterexample :
    (step c4State c4Tx).isOk = true ∧
    c4State.dailyTradeCount 1 = 2 ∧
    (applyTx c4State c4Tx).dailyTradeCount 1 = 1 ∧
    (applyTx c4State c4Tx).dailyTradeCount 1 ≠ c4State.dailyTradeCount 1 + 1 := by
  set_option maxRecDepth 100000 in decide

/-- C4 (amended): a successful `executeTrade(amount, price, isBuy, coinId)`
by user u deducts exactly amount plus amount / 1000 from the balance of u,
appends exactly one trade record carrying the given arguments and the block
timestamp, increments `totalTrades` by one, and sets `dailyTradeCount` of u
to the day-adjusted counter plus one: the previous value plus one when the
call is not on a strictly later day than the last trade date, and exactly 1
after a day rollover.  Records of every other user are unchanged. -/
theorem c4_executeTrade_postcondition (s : State) (u amount price coinId t : Nat)
    (isBuy : Bool) (s' : State) (ev : List Event)
    (h : Plain.executeTrade s u amount price isBuy coinId t = .ok (s', ev)) :
    s'.balances u = s.balances u - ((amount : Int) + (amount : Int) / 1000) ∧
    s'.tradeHistory u =
      s.tradeHistory u ++ [⟨(amount : Int), (price : Int), isBuy, (t : Int), (coinId : Int)⟩] ∧
    s'.totalTrades = s.totalTrades + 1 ∧
    s'.dailyTradeCount u = (resetDailyCounterIfNeeded s u t).dailyTradeCount u + 1 ∧
    (¬ s.lastTradeDate u / 86400 < (t : Int) / 86400 →
      s'.dailyTradeCount u = s.dailyTradeCount u + 1) ∧
    (s.lastTradeDate u / 86400 < (t : Int) / 86400 → s'.dailyTradeCount u = 1) ∧
    ev = [.tradeExecuted u (t : Int) isBuy (coinId : Int) (amount : Int) (price : Int)] ∧
    ∀ b, b ≠ u → s'.balances b = s.balances b ∧ s'.tradeHistory b = s.tradeHistory b ∧
      s'.openPositions b = s.openPositions b ∧ s'.dailyTradeCount b = s.dailyTradeCount b ∧
      s'.lastTradeDate b = s.lastTradeDate b := by
  obtain ⟨hp, hlim, hact, hover, hbal, rfl, rfl⟩ := executeTrade_ok h
  refine ⟨by simp, by simp, rfl, by simp, ?_, ?_, rfl, ?_⟩
  · intro hnr
    simp [reset_daily_u, if_neg hnr]
  · intro hr
    simp [reset_daily_u, if_pos hr]
  · intro b hb
    refine ⟨by simp [Function.update_noteq hb], by simp [Function.update_noteq hb],
            rfl, ?_, by simp [reset_last_ne _ _ _ _ hb]⟩
    simp [Function.update_noteq hb, reset_daily_ne _ _ _ _ hb]

/-- State before the C4 witness call: user 1 configured and funded. -/
def c4wPre : State :=
  run (initState 0) [⟨1, 0, .configureBotSettings 50 5 true 70⟩, ⟨1, 0, .deposit 1000000⟩]

/-- State after the C4 witness call. -/
def c4wPost : State := applyTx c4wPre ⟨1, 0, .executeTrade 1000 5 true 0⟩

/-- C4 witness: the amended postcondition at a concrete successful trade. -/
theorem c4_executeTrade_postcondition_witness :
    Plain.executeTrade c4wPre 1 1000 5 true 0 0 =
      .ok (c4wPost, [.tradeExecuted 1 0 true 0 1000 5]) ∧
    c4wPost.balances 1 = c4wPre.balances 1 - ((1000 : Int) + (1000 : Int) / 1000) := by
  have h : Plain.executeTrade c4wPre 1 1000 5 true 0 0 =
      .ok (c4wPost, [.tradeExecuted 1 0 true 0 1000 5]) := by
    set_option maxRecDepth 100000 in rfl
  exact ⟨h, (c4_executeTrade_postcondition c4wPre 1 1000 5 0 0 true c4wPost _ h).1⟩

/-! ### C5: per-address isolation -/

/-- The five ledger operations named by the isolation claim. -/
def isLedgerCall : Call → Bool
  | .deposit _ => true
  | .withdraw _ _ => true
  | .executeTrade _ _ _ _ => true
  | .openPosition _ _ _ _ _ => true
  | .closePosition _ _ => true
  | _ => false

/-- C5: deposit, withdraw, executeTrade, openPosition and closePosition
invoked by a sender modify only the senders entries of balances,
tradeHistory, openPositions, dailyTradeCount and lastTradeDate; every other
address keeps its balance and records, and getBalance returns exactly the
callers stored balance. -/
theorem c5_balance_isolation :
    (∀ s tx b, isLedgerCall tx.call = true → b ≠ tx.sender →
      (applyTx s tx).balances b = s.balances b ∧
      (applyTx s tx).tradeHistory b = s.tradeHistory b ∧
      (applyTx s tx).openPositions b = s.openPositions b ∧
      (applyTx s tx).dailyTradeCount b = s.dailyTradeCount b ∧
      (applyTx s tx).lastTradeDate b = s.lastTradeDate b) ∧
    (∀ s u, Plain.getBalance s u = s.balances u) := by
  constructor
  · intro s tx b hc hb
    obtain ⟨a, t, c⟩ := tx
    simp only at hb
    unfold applyTx
    rcases hstep : step s ⟨a, t, c⟩ with e | ⟨s1, ev⟩
    · exact ⟨rfl, rfl, rfl, rfl, rfl⟩
    · cases c with
      | deposit v =>
        obtain ⟨-, -, -, rfl, -⟩ := deposit_ok (by simpa [step] using hstep)
        simp [Function.update_noteq hb]
      | withdraw amount xferOk =>
        obtain ⟨-, -, -, rfl, -⟩ := withdraw_ok (by simpa [step] using hstep)
        simp [Function.update_noteq hb]
      | executeTrade amount price isBuy coinId =>
        obtain ⟨-, -, -, -, -, rfl, -⟩ := executeTrade_ok (by simpa [step] using hstep)
        simp [Function.update_noteq hb, reset_daily_ne _ _ _ _ hb, reset_last_ne _ _ _ _ hb]
      | openPosition amount entryPrice stopLoss takeProfit coinId =>
        obtain ⟨-, -, -, -, -, -, rfl, -⟩ := openPosition_ok (by simpa [step] using hstep)
        simp [Function.update_noteq hb, reset_daily_ne _ _ _ _ hb, reset_last_ne _ _ _ _ hb]
      | closePosition idx cp =>
        obtain ⟨-, -, -, pnl, sum, -, -, -, rfl, -⟩ := closePosition_ok (by simpa [step] using hstep)
        simp [Function.update_noteq hb]
      | pause => exact absurd hc (by simp [isLedgerCall])
      | unpause => exact absurd hc (by simp [isLedgerCall])
      | configureBotSettings a1 a2 a3 a4 => exact absurd hc (by simp [isLedgerCall])
      | receiveEth v => exact absurd hc (by simp [isLedgerCall])
      | emergencyWithdraw xferOk => exact absurd hc (by simp [isLedgerCall])
  · intro s u; rfl

/-- C5 witness: isolation at a concrete deposit by user 1, observed at
address 2, and getBalance at a concrete state. -/
theorem c5_balance_isolation_witness :
    isLedgerCall (Call.deposit 5) = true ∧ (2 : Nat) ≠ (1 : Nat) ∧
    (applyTx (initState 0) ⟨1, 0, .deposit 5⟩).balances 2 = (initState 0).balances 2 ∧
    Plain.getBalance (initState 0) 1 = (initState 0).balances 1 :=
  ⟨by decide, by decide,
   (c5_balance_isolation.1 (initState 0) ⟨1, 0, .deposit 5⟩ 2 (by decide) (by decide)).1,
   c5_balance_isolation.2 (initState 0) 1⟩

/-! ### C6: position active-flag transitions -/

/-- C6: openPosition appends a position with isActive true after validating
stop-loss below entry below take-profit; closePosition flips the flag at the
given index to false; closePosition on an inactive position reverts with
Position not active; and an inactive position is never modified again by any
operation. -/
theorem c6_position_flag_transitions :
    (∀ s u amount entryPrice stopLoss takeProfit coinId t s' ev,
      Plain.openPosition s u amount entryPrice stopLoss takeProfit coinId t = .ok (s', ev) →
      stopLoss < entryPrice ∧ entryPrice < takeProfit ∧
      s'.openPositions u = s.openPositions u ++
        [⟨(entryPrice : Int), (amount : Int), (stopLoss : Int), (takeProfit : Int),
          (t : Int), true, (coinId : Int)⟩]) ∧
    (∀ s u idx cp t s' ev, Plain.closePosition s u idx cp t = .ok (s', ev) →
      ∃ p, (s.openPositions u)[idx]? = some p ∧ p.isActive = true ∧
        (s'.openPositions u)[idx]? = some { p with isActive := false }) ∧
    (∀ s u idx cp t p, s.isPaused = false → (s.openPositions u)[idx]? = some p →
      p.isActive = false → Plain.closePosition s u idx cp t = .error "Position not active") ∧
    (∀ (s : State) (tx : Tx) (a i : Nat) (p : Position),
      (s.openPositions a)[i]? = some p → p.isActive = false →
      ((applyTx s tx).openPositions a)[i]? = some p) := by
  refine ⟨?_, ?_, ?_, ?_⟩
  · intro s u amount entryPrice stopLoss takeProfit coinId t s' ev h
    obtain ⟨-, -, -, -, h5, h6, rfl, -⟩ := openPosition_ok h
    exact ⟨h5, h6, by simp [Function.update_same]⟩
  · intro s u idx cp t s' ev h
    obtain ⟨-, hlen, hact, pnl, sum, -, -, -, rfl, -⟩ := closePosition_ok h
    refine ⟨(s.openPositions u).getD idx default, ?_, hact, ?_⟩
    · simp [List.getD_eq_getElem?_getD, List.getElem?_eq_getElem hlen]
    · simp only [Function.update_same]
      simp [List.getElem?_set_self, hlen]
  · intro s u idx cp t p hpause hp hinact
    unfold Plain.closePosition
    have hlen : idx < (s.openPositions u).length := (List.getElem?_eq_some.mp hp).1
    have hgetD : (s.openPositions u).getD idx default = p := by
      simp [List.getD_eq_getElem?_getD, hp]
    rw [if_neg (by simp [hpause]), if_neg (by omega)]
    dsimp only
    rw [hgetD, if_pos (by simp [hinact])]
  · intro s tx a i p hp hinact
    obtain ⟨u, t, c⟩ := tx
    unfold applyTx
    rcases hstep : step s ⟨u, t, c⟩ with e | ⟨s1, ev⟩
    · exact hp
    · have hi : i < (s.openPositions a).length := (List.getElem?_eq_some.mp hp).1
      cases c with
      | deposit v =>
        obtain ⟨-, -, -, rfl, -⟩ := deposit_ok (by simpa [step] using hstep); exact hp
      | withdraw amount xferOk =>
        obtain ⟨-, -, -, rfl, -⟩ := withdraw_ok (by simpa [step] using hstep); exact hp
      | executeTrade amount price isBuy coinId =>
        obtain ⟨-, -, -, -, -, rfl, -⟩ := executeTrade_ok (by simpa [step] using hstep); exact hp
      | openPosition amount entryPrice stopLoss takeProfit coinId =>
        obtain ⟨-, -, -, -, -, -, rfl, -⟩ := openPosition_ok (by simpa [step] using hstep)
        dsimp only
        by_cases hau : a = u
        · subst hau
          rw [Function.update_same, List.getElem?_append, if_pos hi]
          exact hp
        · rw [Function.update_noteq hau]
          exact hp
      | closePosition idx cp =>
        obtain ⟨-, hlen, hact, pnl, sum, -, -, -, rfl, -⟩ :=
          closePosition_ok (by simpa [step] using hstep)
        dsimp only
        by_cases hau : a = u
        · subst hau
          rw [Function.update_same]
          have hne : idx ≠ i := by
            intro hEq
            subst hEq
            have : (s.openPositions a).getD idx default = p := by
              simp [List.getD_eq_getElem?_getD, hp]
            rw [this] at hact
            rw [hact] at hinact
            cases hinact
          rw [List.getElem?_set_ne hne]
          exact hp
        · rw [Function.update_noteq hau]
          exact hp
      | pause =>
        obtain ⟨-, rfl, -⟩ := pause_ok (by simpa [step] using hstep); exact hp
      | unpause =>
        obtain ⟨-, rfl, -⟩ := unpause_ok (by simpa [step] using hstep); exact hp
      | configureBotSettings a1 a2 a3 a4 =>
        obtain ⟨-, -, -, rfl, -⟩ := configureBotSettings_ok (by simpa [step] using hstep); exact hp
      | receiveEth v =>
        obtain ⟨-, rfl, -⟩ := receiveEth_ok (by simpa [step] using hstep); exact hp
      | emergencyWithdraw xferOk =>
        obtain ⟨-, rfl, -⟩ := emergencyWithdraw_ok (by simpa [step] using hstep); exact hp

/-! ### Arithmetic helper lemmas for the checked operations -/

theorem umul_ok {a b r : Int} (h : umul a b = .ok r) : r = a * b ∧ a * b < UMAX := by
  unfold umul at h
  split at h
  · injection h with h1; exact ⟨h1.symm, by assumption⟩
  · exact Except.noConfusion h

theorem udiv_ok {a b r : Int} (h : udiv a b = .ok r) : r = a / b ∧ b ≠ 0 := by
  unfold udiv at h
  split at h
  · exact Except.noConfusion h
  · injection h with h1; exact ⟨h1.symm, by assumption⟩

theorem ineg_ok {a r : Int} (h : ineg a = .ok r) : r = -a ∧ a ≠ -IHALF := by
  unfold ineg at h
  split at h
  · exact Except.noConfusion h
  · injection h with h1; exact ⟨h1.symm, by assumption⟩

theorem iadd_ok {a b r : Int} (h : iadd a b = .ok r) :
    r = a + b ∧ -IHALF ≤ a + b ∧ a + b < IHALF := by
  unfold iadd at h
  split at h
  · injection h with h1; exact ⟨h1.symm, by assumption⟩
  · exact Except.noConfusion h

theorem toUint256_nonneg (x : Int) : 0 ≤ toUint256 x :=
  Int.emod_nonneg x (by norm_num [UMAX])

/-- Inversion of the profit-and-loss computation of closePosition. -/
theorem pnlCalc_ok {e a c pnl : Int} (h : Plain.pnlCalc e a c = .ok pnl) :
    e ≠ 0 ∧
    (e < c → (c - e) * a < UMAX ∧ pnl = toInt256 ((c - e) * a / e)) ∧
    (¬ e < c → (e - c) * a < UMAX ∧ pnl = -toInt256 ((e - c) * a / e)) := by
  unfold Plain.pnlCalc at h
  split at h
  case isTrue hec =>
    repeat' split at h
    any_goals exact Except.noConfusion h
    rename_i scr1 prod hprod scr2 q hq
    obtain ⟨rfl, hmul⟩ := umul_ok hprod
    obtain ⟨rfl, hdvd⟩ := udiv_ok hq
    injection h with h1
    exact ⟨hdvd, fun _ => ⟨hmul, h1.symm⟩, fun hn => absurd hec hn⟩
  case isFalse hec =>
    repeat' split at h
    any_goals exact Except.noConfusion h
    rename_i scr1 prod hprod scr2 q hq
    obtain ⟨rfl, hmul⟩ := umul_ok hprod
    obtain ⟨rfl, hdvd⟩ := udiv_ok hq
    obtain ⟨rfl, -⟩ := ineg_ok h
    exact ⟨hdvd, fun hc => absurd hc hec, fun _ => ⟨hmul, rfl⟩⟩

/-- The uint256 reading of int256(amount) + pnl in the loss branch: whenever
the checked int256 addition of the reinterpreted principal and the negated
reinterpreted loss succeeds, the credited uint256 value is exactly principal
minus loss. -/
theorem credit_loss {a q sum : Int} (ha0 : 0 ≤ a) (haU : a < UMAX) (hq0 : 0 ≤ q) (hqa : q ≤ a)
    (hsum : iadd (toInt256 a) (-toInt256 q) = .ok sum) :
    toUint256 sum = a - q := by
  have h1 := iadd_ok hsum
  rw [h1.1]
  have h2 := h1.2.1
  have h3 := h1.2.2
  simp only [toUint256, toInt256, UMAX, IHALF] at haU h2 h3 ⊢
  norm_num at haU h2 h3 ⊢
  split_ifs <;> omega

/-- The uint256 reading of int256(amount) + pnl in the profit branch: when
principal plus profit stays below 2 to the 256, the credited value is exactly
principal plus profit. -/
theorem credit_profit {a q sum : Int} (ha0 : 0 ≤ a) (hq0 : 0 ≤ q) (hsumU : a + q < UMAX)
    (hsum : iadd (toInt256 a) (toInt256 q) = .ok sum) :
    toUint256 sum = a + q := by
  have h1 := iadd_ok hsum
  rw [h1.1]
  have h2 := h1.2.1
  have h3 := h1.2.2
  simp only [toUint256, toInt256, UMAX, IHALF] at hsumU h2 h3 ⊢
  norm_num at hsumU h2 h3 ⊢
  split_ifs <;> omega

/-! ### C1: balance non-negativity and the closePosition credit -/

/-- The trace of the C1 counterexample: user 1 deposits 3 * 2 ^ 254 wei,
configures the bot, and opens a position of that full amount at entry price
1 with stop-loss 0 and take-profit 2. -/
def c1PreState : State :=
  run (initState 0)
    [⟨1, 0, .deposit (3 * 2 ^ 254)⟩,
     ⟨1, 0, .configureBotSettings 100 5 true 70⟩,
     ⟨1, 0, .openPosition (3 * 2 ^ 254) 1 0 2 0⟩]

/-- Closing that position at currentPrice 2 (price doubled). -/
def c1CloseTx : Tx := ⟨1, 0, .closePosition 0 2⟩

/-- The state after the close. -/
def c1PostState : State := applyTx c1PreState c1CloseTx

/-- C1 counterexample: closePosition succeeds at a doubled price on a
position of principal 3 * 2 ^ 254 and entry price 1, but the int256 casts of
the pnl computation wrap, so the balance is credited 2 ^ 255 instead of
principal plus profit (which would be 3 * 2 ^ 255): the claimed closePosition
credit equation fails at this input. -/
theorem c1_counterexample :
    c1PreState.balances 1 = 0 ∧
    (c1PreState.openPositions 1)[0]? =
      some ⟨1, 3 * 2 ^ 254, 0, 2, 0, true, 0⟩ ∧
    (step c1PreState c1CloseTx).isOk = true ∧
    c1PostState.balances 1 = 2 ^ 255 ∧
    c1PostState.balances 1 ≠
      c1PreState.balances 1 + (3 * 2 ^ 254 + (2 - 1) * (3 * 2 ^ 254) / 1) := by
  set_option maxRecDepth 1000000 in decide

/-- C1 (amended): balances stay non-negative under every operation; withdraw
reverts with Insufficient balance when the amount exceeds the stored balance
of the caller; a successful executeTrade deducts amount plus fee only when
the balance covers it; and a successful closePosition credits back a
non-negative amount which equals principal minus loss in the loss branch
(the loss never exceeding the principal), and equals principal plus profit
in the profit branch provided principal plus profit is below 2 to the 256
(otherwise the int256 casts wrap, as the counterexample shows). -/
theorem c1_balance_nonneg (s : State) :
    (∀ tx s1 ev, (∀ x, 0 ≤ s.balances x) → step s tx = .ok (s1, ev) →
      ∀ x, 0 ≤ s1.balances x) ∧
    (∀ (u amount : Nat) (xferOk : Bool) (t : Nat),
      s.isPaused = false → s.balances u < (amount : Int) →
      Plain.withdraw s u amount xferOk t = .error "Insufficient balance") ∧
    (∀ (u amount price coinId t : Nat) (isBuy : Bool) (s1 : State) (ev : List Event),
      Plain.executeTrade s u amount price isBuy coinId t = .ok (s1, ev) →
      (amount : Int) + (amount : Int) / 1000 ≤ s.balances u ∧
      s1.balances u = s.balances u - ((amount : Int) + (amount : Int) / 1000)) ∧
    (∀ (u idx cp t : Nat) (s1 : State) (ev : List Event),
      Plain.closePosition s u idx cp t = .ok (s1, ev) →
      0 ≤ ((s.openPositions u).getD idx default).amount →
      ((s.openPositions u).getD idx default).amount < UMAX →
      0 ≤ ((s.openPositions u).getD idx default).entryPrice →
      0 ≤ s1.balances u - s.balances u ∧
      ((cp : Int) ≤ ((s.openPositions u).getD idx default).entryPrice →
        (((s.openPositions u).getD idx default).entryPrice - (cp : Int)) *
            ((s.openPositions u).getD idx default).amount /
            ((s.openPositions u).getD idx default).entryPrice ≤
          ((s.openPositions u).getD idx default).amount ∧
        s1.balances u = s.balances u +
          (((s.openPositions u).getD idx default).amount -
            (((s.openPositions u).getD idx default).entryPrice - (cp : Int)) *
              ((s.openPositions u).getD idx default).amount /
              ((s.openPositions u).getD idx default).entryPrice)) ∧
      (((s.openPositions u).getD idx default).entryPrice < (cp : Int) →
        ((s.openPositions u).getD idx default).amount +
            ((cp : Int) - ((s.openPositions u).getD idx default).entryPrice) *
              ((s.openPositions u).getD idx default).amount /
              ((s.openPositions u).getD idx default).entryPrice < UMAX →
        s1.balances u = s.balances u +
          (((s.openPositions u).getD idx default).amount +
            ((cp : Int) - ((s.openPositions u).getD idx default).entryPrice) *
              ((s.openPositions u).getD idx default).amount /
              ((s.openPositions u).getD idx default).entryPrice))) := by
  refine ⟨?_, ?_, ?_, ?_⟩
  · intro tx s1 ev hs h
    obtain ⟨a, t, c⟩ := tx
    cases c with
    | deposit v =>
      obtain ⟨-, -, -, rfl, -⟩ := deposit_ok (by simpa [step] using h)
      intro x
      by_cases hx : x = a
      · subst hx
        simp only [Function.update_same]
        have := hs x
        omega
      · simpa [Function.update_noteq hx] using hs x
    | withdraw amount xferOk =>
      obtain ⟨-, hbal, -, rfl, -⟩ := withdraw_ok (by simpa [step] using h)
      intro x
      by_cases hx : x = a
      · subst hx; simp only [Function.update_same]; omega
      · simpa [Function.update_noteq hx] using hs x
    | executeTrade amount price isBuy coinId =>
      obtain ⟨-, -, -, -, hbal, rfl, -⟩ := executeTrade_ok (by simpa [step] using h)
      intro x
      by_cases hx : x = a
      · subst hx; simp only [Function.update_same]; omega
      · simpa [Function.update_noteq hx] using hs x
    | openPosition a1 a2 a3 a4 a5 =>
      obtain ⟨-, -, -, hbal, -, -, rfl, -⟩ := openPosition_ok (by simpa [step] using h)
      intro x
      by_cases hx : x = a
      · subst hx; simp only [Function.update_same]; omega
      · simpa [Function.update_noteq hx] using hs x
    | closePosition idx cp =>
      obtain ⟨-, -, -, pnl, sum, -, hsum, -, rfl, -⟩ :=
        closePosition_ok (by simpa [step] using h)
      intro x
      by_cases hx : x = a
      · subst hx
        simp only [Function.update_same]
        have h1 := hs x
        have h2 := toUint256_nonneg sum
        omega
      · simpa [Function.update_noteq hx] using hs x
    | pause =>
      obtain ⟨-, rfl, -⟩ := pause_ok (by simpa [step] using h); exact hs
    | unpause =>
      obtain ⟨-, rfl, -⟩ := unpause_ok (by simpa [step] using h); exact hs
    | configureBotSettings a1 a2 a3 a4 =>
      obtain ⟨-, -, -, rfl, -⟩ := configureBotSettings_ok (by simpa [step] using h); exact hs
    | receiveEth v =>
      obtain ⟨-, rfl, -⟩ := receiveEth_ok (by simpa [step] using h)
      intro x
      by_cases hx : x = a
      · subst hx
        simp only [Function.update_same]
        have := hs x
        omega
      · simpa [Function.update_noteq hx] using hs x
    | emergencyWithdraw xferOk =>
      obtain ⟨-, rfl, -⟩ := emergencyWithdraw_ok (by simpa [step] using h); exact hs
  · intro u amount xferOk t hp hbal
    unfold Plain.withdraw
    rw [if_neg (by simp [hp])]
    dsimp only
    rw [if_pos hbal]
  · intro u amount price coinId t isBuy s1 ev h
    obtain ⟨-, -, -, -, hbal, rfl, -⟩ := executeTrade_ok h
    exact ⟨hbal, by simp⟩
  · intro u idx cp t s1 ev h ha0 haU he0
    obtain ⟨-, -, -, pnl, sum, hpnl, hsum, -, rfl, -⟩ := closePosition_ok h
    obtain ⟨hene, hprofit, hloss⟩ := pnlCalc_ok hpnl
    have hbal : (Function.update s.balances u (s.balances u + toUint256 sum) : Nat → Int) u
        = s.balances u + toUint256 sum := Function.update_same u _ _
    refine ⟨?_, ?_, ?_⟩
    · simp only [hbal]
      have := toUint256_nonneg sum
      omega
    · intro hcp
      have hne : ¬ ((s.openPositions u).getD idx default).entryPrice < (cp : Int) := by omega
      obtain ⟨hmul, rfl⟩ := hloss hne
      set e := ((s.openPositions u).getD idx default).entryPrice with hedef
      set a := ((s.openPositions u).getD idx default).amount with hadef
      have hepos : 0 < e := lt_of_le_of_ne he0 (Ne.symm hene)
      have hq0 : 0 ≤ (e - (cp : Int)) * a / e :=
        Int.ediv_nonneg (mul_nonneg (by omega) ha0) (le_of_lt hepos)
      have hqa : (e - (cp : Int)) * a / e ≤ a := by
        calc (e - (cp : Int)) * a / e ≤ e * a / e :=
              Int.ediv_le_ediv hepos (mul_le_mul_of_nonneg_right (by omega) ha0)
        _ = a := Int.mul_ediv_cancel_left a (ne_of_gt hepos)
      have hcredit := credit_loss ha0 haU hq0 hqa hsum
      exact ⟨hqa, by simp only [Function.update_same, hcredit]⟩
    · intro hcp hnw
      obtain ⟨hmul, rfl⟩ := hprofit hcp
      set e := ((s.openPositions u).getD idx default).entryPrice with hedef
      set a := ((s.openPositions u).getD idx default).amount with hadef
      have hepos : 0 < e := lt_of_le_of_ne he0 (Ne.symm hene)
      have hq0 : 0 ≤ ((cp : Int) - e) * a / e :=
        Int.ediv_nonneg (mul_nonneg (by omega) ha0) (le_of_lt hepos)
      have hcredit := credit_profit ha0 hq0 hnw hsum
      simp only [Function.update_same, hcredit]

/-- The state after a first deposit for the C1 witness. -/
def c1wPost : State := applyTx (initState 0) ⟨1, 0, .deposit 5⟩

/-- C1 witness: non-negativity preserved across a concrete deposit. -/
theorem c1_balance_nonneg_witness :
    step (initState 0) ⟨1, 0, .deposit 5⟩ = .ok (c1wPost, [.deposit 1 5 0]) ∧
    0 ≤ c1wPost.balances 1 :=
  have h : step (initState 0) ⟨1, 0, .deposit 5⟩ = .ok (c1wPost, [.deposit 1 5 0]) := by
    set_option maxRecDepth 100000 in rfl
  ⟨h, (c1_balance_nonneg (initState 0)).1 ⟨1, 0, .deposit 5⟩ c1wPost _
        (fun _ => le_refl 0) h 1⟩

/-! ### C10: receive() bypasses the pause gate -/

/-- C10: while the contract is paused, deposit() reverts with Trading is
paused, yet a direct transfer handled by receive() still credits msg.value
to the sender, increments totalUsers when the resulting balance equals the
transferred value, and emits a Deposit event. -/
theorem c10_receive_bypasses_pause (s : State) (u v t : Nat) :
    (s.isPaused = true → Plain.deposit s u v t = .error "Trading is paused") ∧
    (s.balances u + (v : Int) < UMAX → s.totalUsers + 1 < UMAX →
      Plain.receiveEth s u v t = .ok
        (⟨Function.update s.balances u (s.balances u + (v : Int)), s.tradeHistory,
          s.openPositions, s.botConfigs, s.dailyTradeCount, s.lastTradeDate,
          s.owner, s.isPaused,
          (if s.balances u + (v : Int) = (v : Int) then s.totalUsers + 1 else s.totalUsers),
          s.totalTrades⟩,
         [.deposit u (v : Int) (t : Int)])) := by
  constructor
  · intro hp
    unfold Plain.deposit
    rw [if_pos (by simp [hp])]
  · intro hb ht
    unfold Plain.receiveEth
    dsimp only
    rw [if_neg (by omega)]
    by_cases hnb : s.balances u + (v : Int) = (v : Int)
    · rw [if_pos hnb, if_neg (by omega), if_pos hnb]
    · rw [if_neg hnb, if_neg hnb]

/-- C10 witness: at a concrete paused state, deposit reverts while a direct
transfer still credits the balance. -/
theorem c10_receive_bypasses_pause_witness :
    (applyTx (initState 0) ⟨0, 0, .pause⟩).isPaused = true ∧
    Plain.deposit (applyTx (initState 0) ⟨0, 0, .pause⟩) 1 5 0 =
      .error "Trading is paused" ∧
    Plain.receiveEth (applyTx (initState 0) ⟨0, 0, .pause⟩) 1 5 0 =
      .ok
        (⟨Function.update (applyTx (initState 0) ⟨0, 0, .pause⟩).balances 1
            ((applyTx (initState 0) ⟨0, 0, .pause⟩).balances 1 + (5 : Int)),
          (applyTx (initState 0) ⟨0, 0, .pause⟩).tradeHistory,
          (applyTx (initState 0) ⟨0, 0, .pause⟩).openPositions,
          (applyTx (initState 0) ⟨0, 0, .pause⟩).botConfigs,
          (applyTx (initState 0) ⟨0, 0, .pause⟩).dailyTradeCount,
          (applyTx (initState 0) ⟨0, 0, .pause⟩).lastTradeDate,
          (applyTx (initState 0) ⟨0, 0, .pause⟩).owner,
          (applyTx (initState 0) ⟨0, 0, .pause⟩).isPaused,
          (if (applyTx (initState 0) ⟨0, 0, .pause⟩).balances 1 + (5 : Int) = (5 : Int)
            then (applyTx (initState 0) ⟨0, 0, .pause⟩).totalUsers + 1
            else (applyTx (initState 0) ⟨0, 0, .pause⟩).totalUsers),
          (applyTx (initState 0) ⟨0, 0, .pause⟩).totalTrades⟩,
         [.deposit 1 (5 : Int) (0 : Int)]) :=
  have hp : (applyTx (initState 0) ⟨0, 0, .pause⟩).isPaused = true := by rfl
  ⟨hp,
   (c10_receive_bypasses_pause (applyTx (initState 0) ⟨0, 0, .pause⟩) 1 5 0).1 hp,
   (c10_receive_bypasses_pause (applyTx (initState 0) ⟨0, 0, .pause⟩) 1 5 0).2
     (by decide) (by decide)⟩

/-- State before the C6 witness call: user 1 configured and funded. -/
def c6wPre : State :=
  run (initState 0) [⟨1, 0, .configureBotSettings 50 5 true 70⟩, ⟨1, 0, .deposit 1000000⟩]

/-- State after user 1 opens a position. -/
def c6wPost : State := applyTx c6wPre ⟨1, 0, .openPosition 1000 10 5 20 0⟩

/-- C6 witness: a concrete successful openPosition appends an active
position after the stop-loss and take-profit validation. -/
theorem c6_position_flag_transitions_witness :
    Plain.openPosition c6wPre 1 1000 10 5 20 0 0 =
      .ok (c6wPost, [.positionOpened 1 0 0 1000 10]) ∧
    c6wPost.openPositions 1 =
      c6wPre.openPositions 1 ++ [⟨10, 1000, 5, 20, 0, true, 0⟩] :=
  have h : Plain.openPosition c6wPre 1 1000 10 5 20 0 0 =
      .ok (c6wPost, [.positionOpened 1 0 0 1000 10]) := by rfl
  ⟨h, (c6_position_flag_transitions.1 c6wPre 1 1000 10 5 20 0 0 c6wPost _ h).2.2⟩

/-! ### C2: daily trade limit enforcement -/

/-- The two operations guarded by the `withinDailyLimit` modifier. -/
def isTradeCall : Call → Bool
  | .executeTrade _ _ _ _ => true
  | .openPosition _ _ _ _ _ => true
  | _ => false

/-- Number of successful trade-counted operations by user u whose block
timestamp falls on day d, along a list of transactions. -/
def countTrades (u d : Nat) : State → List Tx → Nat
  | _, [] => 0
  | s, tx :: txs =>
    (if tx.sender = u ∧ tx.time / 86400 = d ∧ isTradeCall tx.call = true ∧ (step s tx).isOk = true
      then 1 else 0) + countTrades u d (applyTx s tx) txs

/-- Every configureBotSettings call by user u in the trace passes L as its
daily trade limit. -/
def configArgOK (u L : Nat) (tx : Tx) : Bool :=
  match tx.call with
  | .configureBotSettings _ dtl _ _ => !(tx.sender == u) || (dtl == L)
  | _ => true

theorem applyTx_of_ok {s : State} {tx : Tx} {s1 : State} {ev : List Event}
    (h : step s tx = .ok (s1, ev)) : applyTx s tx = s1 := by
  unfold applyTx; rw [h]

theorem applyTx_of_not_ok {s : State} {tx : Tx} (h : ¬ (step s tx).isOk = true) :
    applyTx s tx = s := by
  unfold applyTx
  cases hs : step s tx with
  | error e => rfl
  | ok p => rw [hs] at h; exact absurd rfl h

/-- If no transaction in the list carries a day-d timestamp, the day-d trade
count is zero. -/
theorem countTrades_eq_zero (u d : Nat) :
    ∀ (txs : List Tx) (s : State), (∀ tx ∈ txs, ¬ tx.time / 86400 = d) →
      countTrades u d s txs = 0 := by
  intro txs
  induction txs with
  | nil => intro s _; rfl
  | cons tx txs ih =>
    intro s h
    have hd := h tx (List.mem_cons_self _ _)
    simp only [countTrades]
    rw [if_neg (by tauto)]
    rw [ih _ (fun x hx => h x (List.mem_cons_of_mem _ hx))]

/-- The inductive step of the daily-limit bound for a successful
trade-counted call by user u at time t. -/
theorem trade_case_bound (u d L : Nat) (txs : List Tx) (s : State) (t : Nat)
    (ih : ∀ s' : State, txs.Pairwise (fun x y => x.time ≤ y.time) →
      (∀ x ∈ txs, configArgOK u L x = true) →
      (∀ x ∈ txs, s'.lastTradeDate u ≤ (x.time : Int)) →
      (s'.botConfigs u).dailyTradeLimit ≤ (L : Int) →
      0 ≤ s'.dailyTradeCount u → s'.dailyTradeCount u ≤ (L : Int) →
      (countTrades u d s' txs : Int) ≤
        (if s'.lastTradeDate u / 86400 = (d : Int) then (L : Int) - s'.dailyTradeCount u
         else (L : Int)))
    (hsort : txs.Pairwise (fun x y => x.time ≤ y.time))
    (hcfg : ∀ x ∈ txs, configArgOK u L x = true)
    (htime : ∀ x ∈ txs, s.lastTradeDate u ≤ (x.time : Int))
    (hheadle : ∀ x ∈ txs, t ≤ x.time)
    (hlim : (s.botConfigs u).dailyTradeLimit ≤ (L : Int))
    (hdc0 : 0 ≤ s.dailyTradeCount u) (hdcL : s.dailyTradeCount u ≤ (L : Int))
    (htlast : s.lastTradeDate u ≤ (t : Int))
    (hlt : (resetDailyCounterIfNeeded s u t).dailyTradeCount u <
      (s.botConfigs u).dailyTradeLimit)
    (s1 : State)
    (hDC : s1.dailyTradeCount u = (resetDailyCounterIfNeeded s u t).dailyTradeCount u + 1)
    (hLD : s1.lastTradeDate u = (resetDailyCounterIfNeeded s u t).lastTradeDate u)
    (hCFG : s1.botConfigs u = s.botConfigs u) :
    ((if t / 86400 = d then 1 else 0) + countTrades u d s1 txs : Int) ≤
      (if s.lastTradeDate u / 86400 = (d : Int) then (L : Int) - s.dailyTradeCount u
       else (L : Int)) := by
  rw [reset_daily_u] at hlt
  by_cases hfire : s.lastTradeDate u / 86400 < (t : Int) / 86400
  · -- counter reset: new count 1, new last trade date t
    rw [if_pos hfire] at hlt
    have hDC1 : s1.dailyTradeCount u = 1 := by
      rw [hDC, reset_daily_u, if_pos hfire]; omega
    have hLD1 : s1.lastTradeDate u = (t : Int) := by
      rw [hLD, reset_last_u, if_pos hfire]
    have htime1 : ∀ x ∈ txs, s1.lastTradeDate u ≤ (x.time : Int) := by
      intro x hx
      rw [hLD1]
      exact_mod_cast Int.ofNat_le.mpr (hheadle x hx)
    have hih := ih s1 hsort hcfg htime1 (by rw [hCFG]; exact hlim)
      (by rw [hDC1]; omega) (by rw [hDC1]; omega)
    rw [hDC1, hLD1] at hih
    by_cases hday : t / 86400 = d
    · rw [if_pos hday]
      have hLDd : ¬ s.lastTradeDate u / 86400 = (d : Int) := by omega
      rw [if_neg hLDd]
      have htd : (t : Int) / 86400 = (d : Int) := by omega
      rw [if_pos htd] at hih
      omega
    · rw [if_neg hday]
      by_cases hLDd : s.lastTradeDate u / 86400 = (d : Int)
      · -- day d is over: the reset jumped to a strictly later day
        rw [if_pos hLDd]
        have hz : countTrades u d s1 txs = 0 := by
          apply countTrades_eq_zero
          intro x hx
          have h1 : t ≤ x.time := hheadle x hx
          omega
        rw [hz]
        omega
      · rw [if_neg hLDd]
        by_cases htd : (t : Int) / 86400 = (d : Int)
        · omega
        · rw [if_neg htd] at hih; omega
  · -- no reset: counter increments, last trade date unchanged
    rw [if_neg hfire] at hlt
    have hDC1 : s1.dailyTradeCount u = s.dailyTradeCount u + 1 := by
      rw [hDC, reset_daily_u, if_neg hfire]
    have hLD1 : s1.lastTradeDate u = s.lastTradeDate u := by
      rw [hLD, reset_last_u, if_neg hfire]
    have htime1 : ∀ x ∈ txs, s1.lastTradeDate u ≤ (x.time : Int) := by
      intro x hx
      rw [hLD1]
      exact htime x hx
    have hih := ih s1 hsort hcfg htime1 (by rw [hCFG]; exact hlim)
      (by rw [hDC1]; omega) (by rw [hDC1]; omega)
    rw [hDC1, hLD1] at hih
    have hdayseq : s.lastTradeDate u / 86400 = (t : Int) / 86400 := by omega
    by_cases hday : t / 86400 = d
    · have hLDd : s.lastTradeDate u / 86400 = (d : Int) := by omega
      rw [if_pos hday, if_pos hLDd]
      rw [if_pos hLDd] at hih
      omega
    · have hLDd : ¬ s.lastTradeDate u / 86400 = (d : Int) := by omega
      rw [if_neg hday, if_neg hLDd]
      rw [if_neg hLDd] at hih
      omega

/-- The daily-limit bound, generalized over the starting state. -/
theorem countTrades_le_aux (u d L : Nat) :
    ∀ (txs : List Tx) (s : State),
      txs.Pairwise (fun x y => x.time ≤ y.time) →
      (∀ x ∈ txs, configArgOK u L x = true) →
      (∀ x ∈ txs, s.lastTradeDate u ≤ (x.time : Int)) →
      (s.botConfigs u).dailyTradeLimit ≤ (L : Int) →
      0 ≤ s.dailyTradeCount u → s.dailyTradeCount u ≤ (L : Int) →
      (countTrades u d s txs : Int) ≤
        (if s.lastTradeDate u / 86400 = (d : Int) then (L : Int) - s.dailyTradeCount u
         else (L : Int)) := by
  intro txs
  induction txs with
  | nil =>
    intro s _ _ _ _ hdc0 hdcL
    simp only [countTrades, Nat.cast_zero]
    split <;> omega
  | cons tx txs ih =>
    intro s hsort hcfg htime hlim hdc0 hdcL
    obtain ⟨hhead, hsort'⟩ := List.pairwise_cons.mp hsort
    have hcfg' : ∀ x ∈ txs, configArgOK u L x = true :=
      fun x hx => hcfg x (List.mem_cons_of_mem _ hx)
    have hcfghead : configArgOK u L tx = true := hcfg tx (List.mem_cons_self _ _)
    have htime' : ∀ x ∈ txs, s.lastTradeDate u ≤ (x.time : Int) :=
      fun x hx => htime x (List.mem_cons_of_mem _ hx)
    have htimehead : s.lastTradeDate u ≤ (tx.time : Int) := htime tx (List.mem_cons_self _ _)
    simp only [countTrades]
    by_cases hok : (step s tx).isOk = true
    case neg =>
      rw [applyTx_of_not_ok hok, if_neg (by tauto)]
      have hih := ih s hsort' hcfg' htime' hlim hdc0 hdcL
      simpa using hih
    case pos =>
      obtain ⟨⟨s1, ev⟩, hstep⟩ : ∃ p, step s tx = .ok p := by
        cases hs : step s tx with
        | error e => rw [hs] at hok; simp [Except.isOk, Except.toBool] at hok
        | ok p => exact ⟨p, rfl⟩
      rw [applyTx_of_ok hstep]
      obtain ⟨a, t, c⟩ := tx
      have hheadle : ∀ x ∈ txs, t ≤ x.time := hhead
      cases c with
      | deposit v =>
        obtain ⟨-, -, -, hs1, -⟩ := deposit_ok (by simpa [step] using hstep)
        rw [if_neg (by simp [isTradeCall])]
        have hih := ih s1 hsort' hcfg'
          (by intro x hx; simp only [hs1]; exact htime' x hx)
          (by simp only [hs1]; exact hlim)
          (by simp only [hs1]; exact hdc0) (by simp only [hs1]; exact hdcL)
        have hF1 : s1.lastTradeDate u = s.lastTradeDate u := by simp [hs1]
        have hF2 : s1.dailyTradeCount u = s.dailyTradeCount u := by simp [hs1]
        rw [← hF1, ← hF2]
        simpa using hih
      | withdraw amount xferOk =>
        obtain ⟨-, -, -, hs1, -⟩ := withdraw_ok (by simpa [step] using hstep)
        rw [if_neg (by simp [isTradeCall])]
        have hih := ih s1 hsort' hcfg'
          (by intro x hx; simp only [hs1]; exact htime' x hx)
          (by simp only [hs1]; exact hlim)
          (by simp only [hs1]; exact hdc0) (by simp only [hs1]; exact hdcL)
        have hF1 : s1.lastTradeDate u = s.lastTradeDate u := by simp [hs1]
        have hF2 : s1.dailyTradeCount u = s.dailyTradeCount u := by simp [hs1]
        rw [← hF1, ← hF2]
        simpa using hih
      | closePosition idx cp =>
        obtain ⟨-, -, -, pnl, sum, -, -, -, hs1, -⟩ :=
          closePosition_ok (by simpa [step] using hstep)
        rw [if_neg (by simp [isTradeCall])]
        have hih := ih s1 hsort' hcfg'
          (by intro x hx; simp only [hs1]; exact htime' x hx)
          (by simp only [hs1]; exact hlim)
          (by simp only [hs1]; exact hdc0) (by simp only [hs1]; exact hdcL)
        have hF1 : s1.lastTradeDate u = s.lastTradeDate u := by simp [hs1]
        have hF2 : s1.dailyTradeCount u = s.dailyTradeCount u := by simp [hs1]
        rw [← hF1, ← hF2]
        simpa using hih
      | pause =>
        obtain ⟨-, hs1, -⟩ := pause_ok (by simpa [step] using hstep)
        rw [if_neg (by simp [isTradeCall])]
        have hih := ih s1 hsort' hcfg'
          (by intro x hx; simp only [hs1]; exact htime' x hx)
          (by simp only [hs1]; exact hlim)
          (by simp only [hs1]; exact hdc0) (by simp only [hs1]; exact hdcL)
        have hF1 : s1.lastTradeDate u = s.lastTradeDate u := by simp [hs1]
        have hF2 : s1.dailyTradeCount u = s.dailyTradeCount u := by simp [hs1]
        rw [← hF1, ← hF2]
        simpa using hih
      | unpause =>
        obtain ⟨-, hs1, -⟩ := unpause_ok (by simpa [step] using hstep)
        rw [if_neg (by simp [isTradeCall])]
        have hih := ih s1 hsort' hcfg'
          (by intro x hx; simp only [hs1]; exact htime' x hx)
          (by simp only [hs1]; exact hlim)
          (by simp only [hs1]; exact hdc0) (by simp only [hs1]; exact hdcL)
        have hF1 : s1.lastTradeDate u = s.lastTradeDate u := by simp [hs1]
        have hF2 : s1.dailyTradeCount u = s.dailyTradeCount u := by simp [hs1]
        rw [← hF1, ← hF2]
        simpa using hih
      | receiveEth v =>
        obtain ⟨-, hs1, -⟩ := receiveEth_ok (by simpa [step] using hstep)
        rw [if_neg (by simp [isTradeCall])]
        have hih := ih s1 hsort' hcfg'
          (by intro x hx; simp only [hs1]; exact htime' x hx)
          (by simp only [hs1]; exact hlim)
          (by simp only [hs1]; exact hdc0) (by simp only [hs1]; exact hdcL)
        have hF1 : s1.lastTradeDate u = s.lastTradeDate u := by simp [hs1]
        have hF2 : s1.dailyTradeCount u = s.dailyTradeCount u := by simp [hs1]
        rw [← hF1, ← hF2]
        simpa using hih
      | emergencyWithdraw xferOk =>
        obtain ⟨-, hs1, -⟩ := emergencyWithdraw_ok (by simpa [step] using hstep)
        rw [if_neg (by simp [isTradeCall])]
        have hih := ih s1 hsort' hcfg'
          (by intro x hx; simp only [hs1]; exact htime' x hx)
          (by simp only [hs1]; exact hlim)
          (by simp only [hs1]; exact hdc0) (by simp only [hs1]; exact hdcL)
        have hF1 : s1.lastTradeDate u = s.lastTradeDate u := by simp [hs1]
        have hF2 : s1.dailyTradeCount u = s.dailyTradeCount u := by simp [hs1]
        rw [← hF1, ← hF2]
        simpa using hih
      | configureBotSettings mps dtl act minc =>
        obtain ⟨-, -, -, hs1, -⟩ := configureBotSettings_ok (by simpa [step] using hstep)
        rw [if_neg (by simp [isTradeCall])]
        have hlim1 : (s1.botConfigs u).dailyTradeLimit ≤ (L : Int) := by
          simp only [hs1]
          by_cases hau : a = u
          · subst hau
            have hdtlL : dtl = L := by
              simpa [configArgOK] using hcfghead
            rw [Function.update_same, hdtlL]
          · rw [Function.update_noteq (fun h => hau h.symm)]
            exact hlim
        have hih := ih s1 hsort' hcfg'
          (by intro x hx; simp only [hs1]; exact htime' x hx)
          hlim1
          (by simp only [hs1]; exact hdc0) (by simp only [hs1]; exact hdcL)
        have hF1 : s1.lastTradeDate u = s.lastTradeDate u := by simp [hs1]
        have hF2 : s1.dailyTradeCount u = s.dailyTradeCount u := by simp [hs1]
        rw [← hF1, ← hF2]
        simpa using hih
      | executeTrade amount price isBuy coinId =>
        obtain ⟨-, hlt, -, -, -, hs1, -⟩ := executeTrade_ok (by simpa [step] using hstep)
        by_cases hau : a = u
        · subst hau
          have hP : (if (a = a ∧ t / 86400 = d ∧
              isTradeCall (Call.executeTrade amount price isBuy coinId) = true ∧
              (step s ⟨a, t, Call.executeTrade amount price isBuy coinId⟩).isOk = true)
              then (1 : Nat) else 0) = (if t / 86400 = d then 1 else 0) := by
            by_cases hday : t / 86400 = d
            · rw [if_pos ⟨rfl, hday, rfl, hok⟩, if_pos hday]
            · rw [if_neg (by tauto), if_neg hday]
          rw [hP]
          have hb := trade_case_bound a d L txs s t ih hsort' hcfg' htime' hheadle
            hlim hdc0 hdcL htimehead hlt s1
            (by simp [hs1, Function.update_same]) (by simp [hs1]) (by simp [hs1])
          push_cast
          exact hb
        · rw [if_neg (by tauto)]
          have hne : u ≠ a := fun h => hau h.symm
          have hih := ih s1 hsort' hcfg'
            (by intro x hx
                simp only [hs1]
                rw [reset_last_ne _ _ _ _ hne]
                exact htime' x hx)
            (by simp only [hs1]; exact hlim)
            (by simp only [hs1]
                rw [Function.update_noteq hne, reset_daily_ne _ _ _ _ hne]
                exact hdc0)
            (by simp only [hs1]
                rw [Function.update_noteq hne, reset_daily_ne _ _ _ _ hne]
                exact hdcL)
          have hF1 : s1.lastTradeDate u = s.lastTradeDate u := by
            simp [hs1, reset_last_ne _ _ _ _ hne]
          have hF2 : s1.dailyTradeCount u = s.dailyTradeCount u := by
            simp [hs1, Function.update_noteq hne, reset_daily_ne _ _ _ _ hne]
          rw [← hF1, ← hF2]
          simpa using hih
      | openPosition amount entryPrice stopLoss takeProfit coinId =>
        obtain ⟨-, hlt, -, -, -, -, hs1, -⟩ := openPosition_ok (by simpa [step] using hstep)
        by_cases hau : a = u
        · subst hau
          have hP : (if (a = a ∧ t / 86400 = d ∧
              isTradeCall (Call.openPosition amount entryPrice stopLoss takeProfit coinId) = true ∧
              (step s ⟨a, t, Call.openPosition amount entryPrice stopLoss takeProfit coinId⟩).isOk = true)
              then (1 : Nat) else 0) = (if t / 86400 = d then 1 else 0) := by
            by_cases hday : t / 86400 = d
            · rw [if_pos ⟨rfl, hday, rfl, hok⟩, if_pos hday]
            · rw [if_neg (by tauto), if_neg hday]
          rw [hP]
          have hb := trade_case_bound a d L txs s t ih hsort' hcfg' htime' hheadle
            hlim hdc0 hdcL htimehead hlt s1
            (by simp [hs1, Function.update_same]) (by simp [hs1]) (by simp [hs1])
          push_cast
          exact hb
        · rw [if_neg (by tauto)]
          have hne : u ≠ a := fun h => hau h.symm
          have hih := ih s1 hsort' hcfg'
            (by intro x hx
                simp only [hs1]
                rw [reset_last_ne _ _ _ _ hne]
                exact htime' x hx)
            (by simp only [hs1]; exact hlim)
            (by simp only [hs1]
                rw [Function.update_noteq hne, reset_daily_ne _ _ _ _ hne]
                exact hdc0)
            (by simp only [hs1]
                rw [Function.update_noteq hne, reset_daily_ne _ _ _ _ hne]
                exact hdcL)
          have hF1 : s1.lastTradeDate u = s.lastTradeDate u := by
            simp [hs1, reset_last_ne _ _ _ _ hne]
          have hF2 : s1.dailyTradeCount u = s.dailyTradeCount u := by
            simp [hs1, Function.update_noteq hne, reset_daily_ne _ _ _ _ hne]
          rw [← hF1, ← hF2]
          simpa using hih

/-- C2: executeTrade and openPosition revert with Daily trade limit reached
once the day-adjusted counter has reached the configured limit; along any
trace with nondecreasing block timestamps from the deployed state in which
every configureBotSettings call of user u passes L as the limit, user u
completes at most L trade-counted operations whose timestamp falls on any
single day; and the first call on a strictly later day resets the counter to
zero and records the new timestamp. -/
theorem c2_daily_trade_limit :
    (∀ (s : State) (u amount price coinId t : Nat) (isBuy : Bool),
      s.isPaused = false →
      (s.botConfigs u).dailyTradeLimit ≤ (resetDailyCounterIfNeeded s u t).dailyTradeCount u →
      Plain.executeTrade s u amount price isBuy coinId t = .error "Daily trade limit reached") ∧
    (∀ (s : State) (u amount entryPrice stopLoss takeProfit coinId t : Nat),
      s.isPaused = false →
      (s.botConfigs u).dailyTradeLimit ≤ (resetDailyCounterIfNeeded s u t).dailyTradeCount u →
      Plain.openPosition s u amount entryPrice stopLoss takeProfit coinId t =
        .error "Daily trade limit reached") ∧
    (∀ (s : State) (u t : Nat), s.lastTradeDate u / 86400 < (t : Int) / 86400 →
      (resetDailyCounterIfNeeded s u t).dailyTradeCount u = 0 ∧
      (resetDailyCounterIfNeeded s u t).lastTradeDate u = (t : Int)) ∧
    (∀ (deployer u d L : Nat) (txs : List Tx),
      txs.Pairwise (fun x y => x.time ≤ y.time) →
      (∀ x ∈ txs, configArgOK u L x = true) →
      countTrades u d (initState deployer) txs ≤ L) := by
  refine ⟨?_, ?_, ?_, ?_⟩
  · intro s u amount price coinId t isBuy hp hlim
    unfold Plain.executeTrade
    rw [if_neg (by simp [hp])]
    dsimp only
    rw [if_pos (by rw [reset_botConfigs]; exact hlim)]
  · intro s u amount entryPrice stopLoss takeProfit coinId t hp hlim
    unfold Plain.openPosition
    rw [if_neg (by simp [hp])]
    dsimp only
    rw [if_pos (by rw [reset_botConfigs]; exact hlim)]
  · intro s u t h
    rw [reset_daily_u, reset_last_u, if_pos h, if_pos h]
    exact ⟨rfl, rfl⟩
  · intro deployer u d L txs hsort hcfg
    have h := countTrades_le_aux u d L txs (initState deployer) hsort hcfg
      (fun x hx => by simp only [initState]; positivity)
      (Int.natCast_nonneg L) le_rfl (Int.natCast_nonneg L)
    simp only [initState] at h
    have hbound : (countTrades u d (initState deployer) txs : Int) ≤ (L : Int) := by
      revert h
      split <;> intro h <;> simp only [initState] <;> omega
    exact_mod_cast hbound

/-- A trace for the C2 witness: user 1 sets the daily limit to 2 and then
attempts three trades on day 0. -/
def c2wTrace : List Tx :=
  [⟨1, 0, .configureBotSettings 10 2 true 0⟩,
   ⟨1, 0, .deposit 1000000⟩,
   ⟨1, 5, .executeTrade 1000 5 true 0⟩,
   ⟨1, 6, .executeTrade 1000 5 true 0⟩,
   ⟨1, 7, .executeTrade 1000 5 true 0⟩]

/-- C2 witness: the trace bound at a concrete trace in which the third trade
of the day is rejected, so exactly 2 of the 3 attempts succeed. -/
theorem c2_daily_trade_limit_witness :
    c2wTrace.Pairwise (fun x y => x.time ≤ y.time) ∧
    (∀ x ∈ c2wTrace, configArgOK 1 2 x = true) ∧
    countTrades 1 0 (initState 0) c2wTrace = 2 ∧
    countTrades 1 0 (initState 0) c2wTrace ≤ 2 :=
  ⟨by decide, by decide, by decide,
   c2_daily_trade_limit.2.2.2 0 1 0 2 c2wTrace (by decide) (by decide)⟩

/-! ### C3: plain versus shielded variant -/

/-- The ledger outcome of a call: the post-state on success, none on revert.
Events (which differ between the two variants) are not part of the
observation the equivalence claim compares. -/
def coreOf {α : Type} : Except String (State × α) → Option State
  | .ok (s, _) => some s
  | .error _ => none

/-- C3 counterexample: configureBotSettings with dailyTradeLimit = 0 reverts
on the plain variant (Daily limit must be positive) but succeeds on the
shielded variant, so the two variants do not produce the same success/revert
outcomes for every call. -/
theorem c3_counterexample :
    (Plain.configureBotSettings (initState 0) 1 50 0 true 70 5).isOk = false ∧
    (Shielded.configureBotSettings (initState 0) 1 50 0 true 70 5).isOk = true := by
  exact ⟨rfl, rfl⟩

set_option maxHeartbeats 4000000 in
/-- C3 (amended): from any common state, deposit, withdraw, executeTrade,
openPosition, closePosition and getBalance have identical ledger outcomes in
the plain and shielded variants (the same success/revert outcome and, on
success, identical balances, histories, positions, configs and counters;
revert reasons can differ, e.g. executeTrade when the balance covers the
amount but not the fee, and events carry fewer fields in the shielded
variant); configureBotSettings agrees only when dailyTradeLimit is nonzero —
with dailyTradeLimit = 0 the plain variant reverts while the shielded one
succeeds, as the counterexample shows. -/
theorem c3_variant_equivalence (s : State) :
    (∀ u v t : Nat, coreOf (Plain.deposit s u v t) = coreOf (Shielded.deposit s u v t)) ∧
    (∀ (u amount : Nat) (xferOk : Bool) (t : Nat),
      coreOf (Plain.withdraw s u amount xferOk t) =
        coreOf (Shielded.withdraw s u amount xferOk t)) ∧
    (∀ (u amount price : Nat) (isBuy : Bool) (coinId t : Nat),
      coreOf (Plain.executeTrade s u amount price isBuy coinId t) =
        coreOf (Shielded.executeTrade s u amount price isBuy coinId t)) ∧
    (∀ u amount entryPrice stopLoss takeProfit coinId t : Nat,
      coreOf (Plain.openPosition s u amount entryPrice stopLoss takeProfit coinId t) =
        coreOf (Shielded.openPosition s u amount entryPrice stopLoss takeProfit coinId t)) ∧
    (∀ u positionIndex currentPrice t : Nat,
      coreOf (Plain.closePosition s u positionIndex currentPrice t) =
        coreOf (Shielded.closePosition s u positionIndex currentPrice t)) ∧
    (∀ (u mps dtl : Nat) (act : Bool) (minc t : Nat), dtl ≠ 0 →
      coreOf (Plain.configureBotSettings s u mps dtl act minc t) =
        coreOf (Shielded.configureBotSettings s u mps dtl act minc t)) ∧
    (∀ u : Nat, Plain.getBalance s u = Shielded.getBalance s u) := by
  refine ⟨?_, ?_, ?_, ?_, ?_, ?_, fun u => rfl⟩
  · intro u v t
    unfold Plain.deposit Shielded.deposit coreOf
    dsimp only
    split_ifs <;> rfl
  · intro u amount xferOk t
    unfold Plain.withdraw Shielded.withdraw coreOf
    dsimp only
    split_ifs <;> rfl
  · intro u amount price isBuy coinId t
    unfold Plain.executeTrade Shielded.executeTrade coreOf
    dsimp only
    have hfee : (0 : Int) ≤ (amount : Int) / 1000 :=
      Int.ediv_nonneg (by positivity) (by norm_num)
    split_ifs <;> first | rfl | (exfalso; omega)
  · intro u amount entryPrice stopLoss takeProfit coinId t
    unfold Plain.openPosition Shielded.openPosition coreOf
    dsimp only
    split_ifs <;> rfl
  · intro u positionIndex currentPrice t
    unfold Plain.closePosition Shielded.closePosition coreOf
    dsimp only
    split_ifs <;> try rfl
    rcases Plain.pnlCalc ((s.openPositions u).getD positionIndex default).entryPrice
      ((s.openPositions u).getD positionIndex default).amount (currentPrice : Int) with e | pnl
    · rfl
    · dsimp only
      rcases iadd (toInt256 ((s.openPositions u).getD positionIndex default).amount) pnl
        with e | sum
      · rfl
      · dsimp only
        split_ifs <;> rfl
  · intro u mps dtl act minc t hdtl
    unfold Plain.configureBotSettings Shielded.configureBotSettings coreOf
    dsimp only
    split_ifs <;> rfl

/-- C3 witness: the amended equivalence at a concrete state and concrete
calls, including a configureBotSettings call with a nonzero limit. -/
theorem c3_variant_equivalence_witness :
    coreOf (Plain.deposit (initState 0) 1 5 0) =
      coreOf (Shielded.deposit (initState 0) 1 5 0) ∧
    (3 : Nat) ≠ 0 ∧
    coreOf (Plain.configureBotSettings (initState 0) 1 50 3 true 70 5) =
      coreOf (Shielded.configureBotSettings (initState 0) 1 50 3 true 70 5) :=
  ⟨(c3_variant_equivalence (initState 0)).1 1 5 0, by decide,
   (c3_variant_equivalence (initState 0)).2.2.2.2.2.1 1 50 3 true 70 5 (by decide)⟩

/-! ### C7: the cachedFetch TTL behaviour -/

/-- Invariant of the cache state machine: a pending fetch only exists for a
key whose cache entry, if any, is already stale at the current time (a fetch
is only started on a miss or a stale entry, and entries only age). -/
def PendingImpliesStale (s : Server.CState) (duration now : Nat) : Prop :=
  ∀ k, s.pending k ≠ none → ∀ e, s.cache k = some e → e.timestamp + duration ≤ now

/-- Inversion of the startFetch decision: no pending request and no fresh
cache entry. -/
theorem startFetch_inv {s : Server.CState} {k now dur : Nat}
    (h : Server.cachedFetchDecision s k now dur = .startFetch) :
    s.pending k = none ∧
    ∀ e : Server.Entry, s.cache k = some e → ¬ ((now : Int) - e.timestamp < (dur : Int)) := by
  unfold Server.cachedFetchDecision at h
  rcases hpk : s.pending k with _ | pid
  · rw [hpk] at h
    rcases hck : s.cache k with _ | entry
    · exact ⟨rfl, fun e he => by cases he⟩
    · rw [hck] at h
      dsimp only at h
      split at h
      · cases h
      · refine ⟨rfl, fun e he => ?_⟩
        injection he with h2
        subst h2
        assumption
  · rw [hpk] at h; cases h

theorem cstep_preserves_inv (s : Server.CState) (ev : Server.CEvent) (dur : Nat)
    (hInv : PendingImpliesStale s dur ev.time) :
    PendingImpliesStale (Server.cstep s ev dur) dur ev.time := by
  cases ev with
  | call key now =>
    dsimp only [Server.CEvent.time] at *
    unfold Server.cstep
    dsimp only
    cases hdec : Server.cachedFetchDecision s key now dur with
    | awaitPending pid => exact hInv
    | cacheHit dta => exact hInv
    | startFetch =>
      obtain ⟨hpnone, hstale⟩ := startFetch_inv hdec
      intro k hp e hc
      dsimp only at hp hc
      by_cases hk : k = key
      · subst hk
        have := hstale e hc
        omega
      · rw [Function.update_noteq hk] at hp
        exact hInv k hp e hc
  | resolveOk key dta now =>
    dsimp only [Server.CEvent.time] at *
    unfold Server.cstep
    dsimp only
    rcases hpk : s.pending key with _ | pid
    · exact hInv
    · intro k hp e hc
      dsimp only at hp hc
      by_cases hk : k = key
      · subst hk
        rw [Function.update_same] at hp
        exact absurd rfl hp
      · rw [Function.update_noteq hk] at hp hc
        exact hInv k hp e hc
  | resolveErr key now =>
    dsimp only [Server.CEvent.time] at *
    unfold Server.cstep
    dsimp only
    rcases hpk : s.pending key with _ | pid
    · exact hInv
    · intro k hp e hc
      dsimp only at hp hc
      by_cases hk : k = key
      · subst hk
        rw [Function.update_same] at hp
        exact absurd rfl hp
      · rw [Function.update_noteq hk] at hp
        exact hInv k hp e hc

/-- The invariant holds in every state reachable from server start through a
time-ordered event history. -/
theorem crun_inv (dur now : Nat) :
    ∀ (es : List Server.CEvent) (s : Server.CState) (t0 : Nat),
      (∀ e ∈ es, t0 ≤ e.time) → es.Pairwise (fun a b => a.time ≤ b.time) →
      (∀ e ∈ es, e.time ≤ now) → t0 ≤ now →
      PendingImpliesStale s dur t0 →
      PendingImpliesStale (Server.crun s dur es) dur now := by
  intro es
  induction es with
  | nil =>
    intro s t0 _ _ _ ht0 hInv
    exact fun k hp e hc => le_trans (hInv k hp e hc) ht0
  | cons ev es ih =>
    intro s t0 hlow hsort hhigh ht0 hInv
    obtain ⟨hhead, hsort'⟩ := List.pairwise_cons.mp hsort
    have hInv1 : PendingImpliesStale (Server.cstep s ev dur) dur ev.time :=
      cstep_preserves_inv s ev dur
        (fun k hp e hc => le_trans (hInv k hp e hc) (hlow ev (List.mem_cons_self _ _)))
    exact ih (Server.cstep s ev dur) ev.time hhead hsort'
      (fun e he => hhigh e (List.mem_cons_of_mem _ he))
      (hhigh ev (List.mem_cons_self _ _)) hInv1

/-- C7: in any state reached from server start through a time-ordered event
history, a cachedFetch call finding a cache entry strictly younger than the
30-second CACHE_DURATION returns the cached data without invoking the fetch
function; a call finding no pending request and no entry (or only a stale
one) starts a fetch, and its resolution stores the fresh data under a new
timestamp; and while a fetch for a key is pending, a call for the same key
awaits that same pending promise instead of starting a new fetch. -/
theorem c7_cachedFetch_ttl :
    (∀ (s : Server.CState) (k now pid : Nat), s.pending k = some pid →
      Server.cachedFetchDecision s k now Server.CACHE_DURATION = .awaitPending pid) ∧
    (∀ (es : List Server.CEvent) (now k : Nat) (e : Server.Entry),
      es.Pairwise (fun a b => a.time ≤ b.time) → (∀ ev ∈ es, ev.time ≤ now) →
      (Server.crun Server.cinit Server.CACHE_DURATION es).cache k = some e →
      (now : Int) - e.timestamp < Server.CACHE_DURATION →
      Server.cachedFetchDecision (Server.crun Server.cinit Server.CACHE_DURATION es) k now
        Server.CACHE_DURATION = .cacheHit e.data) ∧
    (∀ (s : Server.CState) (k now : Nat), s.pending k = none →
      (∀ e : Server.Entry, s.cache k = some e →
        (Server.CACHE_DURATION : Int) ≤ (now : Int) - e.timestamp) →
      Server.cachedFetchDecision s k now Server.CACHE_DURATION = .startFetch) ∧
    (∀ (s : Server.CState) (k d now pid : Nat), s.pending k = some pid →
      (Server.cstep s (.resolveOk k d now) Server.CACHE_DURATION).cache k =
        some ⟨d, now⟩) := by
  refine ⟨?_, ?_, ?_, ?_⟩
  · intro s k now pid hp
    unfold Server.cachedFetchDecision
    rw [hp]
  · intro es now k e hsort hhigh hc hfresh
    have hInv : PendingImpliesStale (Server.crun Server.cinit Server.CACHE_DURATION es)
        Server.CACHE_DURATION now :=
      crun_inv Server.CACHE_DURATION now es Server.cinit 0
        (fun _ _ => Nat.zero_le _) hsort hhigh (Nat.zero_le _)
        (fun k hp _ _ => absurd rfl hp)
    unfold Server.cachedFetchDecision
    rcases hpk : (Server.crun Server.cinit Server.CACHE_DURATION es).pending k with _ | pid
    · rw [hc]
      dsimp only
      rw [if_pos hfresh]
    · have := hInv k (by rw [hpk]; exact fun h => Option.noConfusion h) e hc
      omega
  · intro s k now hp hstale
    unfold Server.cachedFetchDecision
    rw [hp]
    rcases hck : s.cache k with _ | e
    · rfl
    · dsimp only
      rw [if_neg (by have := hstale e hck; omega)]
  · intro s k d now pid hp
    unfold Server.cstep
    dsimp only
    rw [hp]
    dsimp only
    rw [Function.update_same]

/-- A concrete reachable cache state for the C7 witness: a call at time 0
starts a fetch (pending id 0), which resolves at time 5 storing data 7. -/
def c7wTrace : List Server.CEvent := [.call 0 0, .resolveOk 0 7 5]

/-- The state after the witness trace. -/
def c7wState : Server.CState := Server.crun Server.cinit Server.CACHE_DURATION c7wTrace

/-- C7 witness: the fresh-hit conjunct at a concrete reachable state (entry
stored at time 5, queried at time 20), and the pending conjunct at the
intermediate state. -/
theorem c7_cachedFetch_ttl_witness :
    c7wState.cache 0 = some ⟨7, 5⟩ ∧
    Server.cachedFetchDecision c7wState 0 20 Server.CACHE_DURATION = .cacheHit 7 ∧
    (Server.cstep Server.cinit (.call 0 0) Server.CACHE_DURATION).pending 0 = some 0 ∧
    Server.cachedFetchDecision (Server.cstep Server.cinit (.call 0 0) Server.CACHE_DURATION)
      0 3 Server.CACHE_DURATION = .awaitPending 0 :=
  have hc : c7wState.cache 0 = some ⟨7, 5⟩ := by decide
  have hpend : (Server.cstep Server.cinit (.call 0 0) Server.CACHE_DURATION).pending 0
      = some 0 := by decide
  ⟨hc,
   c7_cachedFetch_ttl.2.1 c7wTrace 20 0 ⟨7, 5⟩ (by decide) (by decide) hc (by decide),
   hpend,
   c7_cachedFetch_ttl.1 _ 0 3 0 hpend⟩

/-! ### C8: error fallbacks -/

/-- C8: when every price source throws, fetchPricesFromMultipleSources
returns the fixed mock coin list; when the fetch inside cachedFetch throws
and a (possibly stale) cache entry exists for the key, the stale data is
returned instead of the error; and an error escaping the GET /api/coins
handler is answered with HTTP 500 and a JSON body with success false and the
error message. -/
theorem c8_error_fallbacks :
    (∀ e1 e2 : String,
      Server.fetchPricesFromMultipleSources (.error e1) (.error e2) = Server.getMockCoins) ∧
    (∀ (s : Server.CState) (k : Nat) (err : String) (e : Server.Entry),
      s.cache k = some e → Server.resolveResult s k (.error err) = .ok e.data) ∧
    (∀ m : String, Server.coinsHandler (.error m) = ⟨500, false, some m, []⟩) := by
  refine ⟨fun e1 e2 => rfl, ?_, fun m => rfl⟩
  intro s k err e hc
  unfold Server.resolveResult
  rw [hc]

/-- C8 witness: the stale-cache fallback at the concrete reachable state of
the C7 witness, plus the closed mock-data and 500-response conjuncts. -/
theorem c8_error_fallbacks_witness :
    c7wState.cache 0 = some ⟨7, 5⟩ ∧
    Server.resolveResult c7wState 0 (.error "boom") = .ok 7 ∧
    Server.fetchPricesFromMultipleSources (.error "down") (.error "down too") =
      Server.getMockCoins ∧
    Server.coinsHandler (.error "oops") = ⟨500, false, some "oops", []⟩ :=
  have hc : c7wState.cache 0 = some ⟨7, 5⟩ := by decide
  ⟨hc, c8_error_fallbacks.2.1 c7wState 0 "boom" ⟨7, 5⟩ hc,
   c8_error_fallbacks.1 "down" "down too", c8_error_fallbacks.2.2 "oops"⟩

/-! ### C9: neutral momentum forces HOLD -/

theorem buyScoreBase_le (tech : AIStrategy.Technicals) (ss m : ℚ)
    (hs1 : ss ≤ 1) (hm : m ≤ 3) :
    AIStrategy.buyScoreBase tech ss m ≤ 0.3875 := by
  unfold AIStrategy.buyScoreBase
  have h1 : (if tech.rsi < 30 then (0.3 : ℚ) * 0.35 else 0) ≤ 0.105 := by
    split <;> norm_num
  have h2 : (if tech.sma50 < tech.sma20 then (0.25 : ℚ) * 0.35 else 0) ≤ 0.0875 := by
    split <;> norm_num
  have h3 : (if tech.signal < tech.macd then (0.2 : ℚ) * 0.35 else 0) ≤ 0.07 := by
    split <;> norm_num
  have h4 : (if 0.6 < ss then (ss - 0.5) * 0.25 else 0) ≤ 0.125 := by
    split
    · nlinarith
    · norm_num
  have h5 : (if 3 < m then m / 10 * 0.25 else 0) ≤ 0 := by
    split
    · linarith
    · norm_num
  linarith

theorem sellScoreBase_le (tech : AIStrategy.Technicals) (ss m : ℚ)
    (hs0 : 0 ≤ ss) (hm : -3 ≤ m) :
    AIStrategy.sellScoreBase tech ss m ≤ 0.3875 := by
  unfold AIStrategy.sellScoreBase
  have h1 : (if ¬ tech.rsi < 30 ∧ 70 < tech.rsi then (0.3 : ℚ) * 0.35 else 0) ≤ 0.105 := by
    split <;> norm_num
  have h2 : (if ¬ tech.sma50 < tech.sma20 ∧ tech.sma20 < tech.sma50
      then (0.25 : ℚ) * 0.35 else 0) ≤ 0.0875 := by
    split <;> norm_num
  have h3 : (if ¬ tech.signal < tech.macd then (0.2 : ℚ) * 0.35 else 0) ≤ 0.07 := by
    split <;> norm_num
  have h4 : (if ¬ 0.6 < ss ∧ ss < 0.4 then (0.5 - ss) * 0.25 else 0) ≤ 0.125 := by
    split
    · nlinarith
    · norm_num
  have h5 : (if ¬ 3 < m ∧ m < -3 then |m| / 10 * 0.25 else 0) ≤ 0 := by
    split
    · rename_i hcond
      exact absurd hcond.2 (by linarith)
    · norm_num
  linarith

theorem finalScores_le (tech : AIStrategy.Technicals) (ss m v : ℚ)
    (hs0 : 0 ≤ ss) (hs1 : ss ≤ 1) (hm1 : -3 ≤ m) (hm2 : m ≤ 3) :
    (AIStrategy.finalScores tech ss m v).1 ≤ 0.5375 ∧
    (AIStrategy.finalScores tech ss m v).2 ≤ 0.5375 := by
  have hb := buyScoreBase_le tech ss m hs1 hm2
  have hs := sellScoreBase_le tech ss m hs0 hm1
  unfold AIStrategy.finalScores
  dsimp only
  split_ifs <;> constructor <;> dsimp only <;> linarith

/-- C9: whenever the combined momentum handed to generateTradingSignal lies
in the closed interval from -3 to 3, neither the buy nor the sell score can
exceed 0.2625 + 0.125 + 0.15 = 0.5375, which is strictly below the 0.70
MIN_CONFIDENCE threshold, so the returned signal is HOLD for every
technicals input, every clamped sentiment score and every volume score. -/
theorem c9_neutral_momentum_holds (tech : AIStrategy.Technicals) (ss m v : ℚ)
    (hm1 : -3 ≤ m) (hm2 : m ≤ 3) (hs0 : 0 ≤ ss) (hs1 : ss ≤ 1) :
    (AIStrategy.generateTradingSignal tech ss m v).1 = .HOLD := by
  obtain ⟨hfb, hfs⟩ := finalScores_le tech ss m v hs0 hs1 hm1 hm2
  unfold AIStrategy.generateTradingSignal
  dsimp only
  split_ifs with h1 h2
  · exfalso; have := h1.2; linarith
  · exfalso; have := h2.2; linarith
  · rfl

/-- C9 witness: HOLD at concrete neutral inputs. -/
theorem c9_neutral_momentum_holds_witness :
    ((-3 : ℚ) ≤ 0 ∧ (0 : ℚ) ≤ 3 ∧ (0 : ℚ) ≤ 0 ∧ (0 : ℚ) ≤ 1) ∧
    (AIStrategy.generateTradingSignal ⟨50, 1, 2, 0, 1⟩ 0 0 1).1 = .HOLD :=
  ⟨⟨by decide, by decide, by decide, by decide⟩,
   c9_neutral_momentum_holds ⟨50, 1, 2, 0, 1⟩ 0 0 1
     (by decide) (by decide) (by decide) (by decide)⟩

end TradingBot
